import Mathlib

/-!
Verification of the UAVFlight telemetry storage and flight-segmentation core.

The development shallowly embeds the Rust sources of the repository:

* `src/backend/src/serialization/` — the checksummed record codec
  (`serialize_value`, `deserialize_value`, `serialize_key`, `deserialize_key`,
  `calculate_crc32`);
* `src/backend/src/store.rs` — the append-only key/value log
  (`put`, `get`, `delete`, `compact`, `clear`, snapshot `load`);
* `src/Backend/telemetry_sim/src/telemetry.rs` — the 113-byte wire codec for
  telemetry packets;
* `src/Backend/telemetry_kv_server/src/types.rs` — the per-packet flight-phase
  classifier;
* `src/Backend/telemetry_kv_server/src/storage.rs` — the flight segmenter.

Conventions of the embedding:

* Machine integers are modelled as `Nat`; where overflow or wrap-around can
  occur the reduction `% 2 ^ w` is written explicitly.  Rust release builds
  wrap on `u64`/`usize` over- and underflow, which is what the explicit `%`
  models; debug builds would panic at the same spot.
* `i64` and `i16` values are represented by their two's-complement bit
  patterns (a `Nat` below `2 ^ 64`, resp. `2 ^ 16`); `f32`/`f64` fields of the
  wire codec are represented by their IEEE-754 bit patterns, since the codec
  moves raw bits.  Two floats are field-wise equal iff their patterns are.
* Byte buffers are `List Nat`; a buffer is well formed when all entries are
  below 256.
* Fallible Rust functions returning `Result` become `Except`.
-/

/-! ## Little-endian byte primitives -/

/-- `w`-byte little-endian encoding of `n` (each byte reduced mod 256), the
model of Rust `to_le_bytes` on a `w`-byte integer. -/
def toLE : Nat → Nat → List Nat
  | 0, _ => []
  | w + 1, n => n % 256 :: toLE w (n / 256)

/-- Value of a little-endian byte list, the model of Rust `from_le_bytes`. -/
def fromLE : List Nat → Nat
  | [] => 0
  | b :: bs => b + 256 * fromLE bs

theorem toLE_length (w n : Nat) : (toLE w n).length = w := by
  induction w generalizing n with
  | zero => rfl
  | succ w ih => simp [toLE, ih]

theorem fromLE_toLE (w n : Nat) : fromLE (toLE w n) = n % 256 ^ w := by
  induction w generalizing n with
  | zero => simp [toLE, fromLE, Nat.mod_one]
  | succ w ih =>
    simp only [toLE, fromLE, ih]
    rw [pow_succ, mul_comm (256 ^ w) 256, Nat.mod_mul]

theorem toLE_lt (w n : Nat) : ∀ b ∈ toLE w n, b < 256 := by
  induction w generalizing n with
  | zero => simp [toLE]
  | succ w ih =>
    intro b hb
    simp only [toLE, List.mem_cons] at hb
    rcases hb with h | h
    · subst h; exact Nat.mod_lt _ (by norm_num)
    · exact ih _ _ h

/-! ## CRC32 (`crc32fast::hash`, `src/backend/src/serialization/header.rs`) -/

/-- One bit step of the reflected CRC-32 (polynomial `0xEDB88320`). -/
def crcStep (s : Nat) : Nat :=
  if s % 2 = 1 then (s / 2) ^^^ 0xEDB88320 else s / 2

/-- Fold one byte into the CRC state (8 bit steps after xoring the byte in). -/
def crcByte (s b : Nat) : Nat := crcStep^[8] (s ^^^ b)

/-- The CRC-32/ISO-HDLC checksum computed by `crc32fast::hash`. -/
def crc32 (bs : List Nat) : Nat := (bs.foldl crcByte 0xFFFFFFFF) ^^^ 0xFFFFFFFF

/-! ## UTF-8 validation (Rust `std::str::from_utf8`) -/

/-- Is `b` a UTF-8 continuation byte. -/
def utf8Cont (b : Nat) : Bool := 0x80 ≤ b && b ≤ 0xBF

/-- UTF-8 validity of a byte sequence, per RFC 3629 as enforced by Rust
`std::str::from_utf8` (no overlongs, no surrogates, max `U+10FFFF`). -/
def utf8Valid : List Nat → Bool
  | [] => true
  | b :: rest =>
    if b ≤ 0x7F then utf8Valid rest
    else if 0xC2 ≤ b && b ≤ 0xDF then
      match rest with
      | c1 :: r => utf8Cont c1 && utf8Valid r
      | [] => false
    else if b = 0xE0 then
      match rest with
      | c1 :: c2 :: r => (0xA0 ≤ c1 && c1 ≤ 0xBF) && utf8Cont c2 && utf8Valid r
      | _ => false
    else if (0xE1 ≤ b && b ≤ 0xEC) || b = 0xEE || b = 0xEF then
      match rest with
      | c1 :: c2 :: r => utf8Cont c1 && utf8Cont c2 && utf8Valid r
      | _ => false
    else if b = 0xED then
      match rest with
      | c1 :: c2 :: r => (0x80 ≤ c1 && c1 ≤ 0x9F) && utf8Cont c2 && utf8Valid r
      | _ => false
    else if b = 0xF0 then
      match rest with
      | c1 :: c2 :: c3 :: r =>
        (0x90 ≤ c1 && c1 ≤ 0xBF) && utf8Cont c2 && utf8Cont c3 && utf8Valid r
      | _ => false
    else if 0xF1 ≤ b && b ≤ 0xF3 then
      match rest with
      | c1 :: c2 :: c3 :: r => utf8Cont c1 && utf8Cont c2 && utf8Cont c3 && utf8Valid r
      | _ => false
    else if b = 0xF4 then
      match rest with
      | c1 :: c2 :: c3 :: r =>
        (0x80 ≤ c1 && c1 ≤ 0x8F) && utf8Cont c2 && utf8Cont c3 && utf8Valid r
      | _ => false
    else false

/-! ## Data model (`src/backend/src/types.rs`, `src/backend/src/error.rs`)

`Key::String`/`Value::String` hold Rust `String`s; they are modelled by their
UTF-8 byte sequences.  `Key::Int`/`Value::Int` hold `i64`, modelled by the
two's-complement bit pattern. -/

/-- `Key` of `src/backend/src/types.rs`. -/
inductive SKey where
  | str (bytes : List Nat)
  | int (bits : Nat)
deriving DecidableEq

/-- `Value` of `src/backend/src/types.rs`. -/
inductive SValue where
  | str (bytes : List Nat)
  | int (bits : Nat)
deriving DecidableEq

/-- `BorrowedEntry` of `src/backend/src/types.rs` (the borrowed text is
modelled by the bytes it views). -/
inductive SEntry where
  | text (bytes : List Nat)
  | int (bits : Nat)
deriving DecidableEq

/-- The entry that reading back a stored `Value` yields. -/
def SValue.toEntry : SValue → SEntry
  | .str bs => .text bs
  | .int n => .int n

/-- `DeserializationError` of `src/backend/src/error.rs`. -/
inductive DeserErr where
  | bufferTooShort (expected actual : Nat)
  | invalidUtf8
  | unknownTag (tag : Nat)
  | checksumMismatch (expected actual : Nat)
  | byteConversionError
deriving DecidableEq

/-- `StoreError` of `src/backend/src/error.rs` (`IoError` is omitted: the
in-memory operations modelled here never raise it). -/
inductive StoreErr where
  | keyNotFound (key : SKey)
  | dataCorruption (cause : DeserErr)
  | invalidData (cause : DeserErr)
  | fileCorrupted
  | unsupportedVersion (version : Nat)
deriving DecidableEq

/-! ## Value codec (`src/backend/src/serialization/value.rs`)

The 13-byte header `RawHeader (repr(C, packed))` is `length : u64`,
`checksum : u32`, `tag : u8`, memcpy'd on a little-endian machine, i.e. the
bytes `toLE 8 length ++ toLE 4 checksum ++ [tag]`. -/

/-- Payload bytes of a serialized value (text: 8-byte length then the UTF-8
bytes; int: 8 little-endian bytes). -/
def valuePayload : SValue → List Nat
  | .str bs => toLE 8 bs.length ++ bs
  | .int n => toLE 8 n

/-- Tag byte chosen by `serialize_value` (`0x01` text, `0x02` int). -/
def valueTag : SValue → Nat
  | .str _ => 0x01
  | .int _ => 0x02

/-- `serialize_value` of `src/backend/src/serialization/value.rs`. -/
def serializeValue (v : SValue) : List Nat :=
  let payload := valuePayload v
  toLE 8 payload.length ++ toLE 4 (crc32 payload) ++ [valueTag v] ++ payload

/-- Tag dispatch of `deserialize_value` (the part of the function after the
header and checksum checks); `consumed` is `13 + header.length`. -/
def deserTagDispatch (valueData : List Nat) (consumed tag : Nat) :
    Except DeserErr (SEntry × Nat) :=
  if tag = 0x01 then
    if valueData.length < 8 then
      .error (.bufferTooShort 8 valueData.length)
    else
      let len := fromLE (valueData.take 8)
      if valueData.length < 8 + len then
        .error (.bufferTooShort (8 + len) valueData.length)
      else
        let s := (valueData.drop 8).take len
        if utf8Valid s then .ok (.text s, consumed) else .error .invalidUtf8
  else if tag = 0x02 then
    if valueData.length < 8 then
      .error (.bufferTooShort 8 valueData.length)
    else
      .ok (.int (fromLE (valueData.take 8)), consumed)
  else
    .error (.unknownTag tag)

/-- `deserialize_value` of `src/backend/src/serialization/value.rs`.
Returns the entry and the number of bytes consumed. -/
def deserializeValue (bytes : List Nat) : Except DeserErr (SEntry × Nat) :=
  if bytes.length < 13 then
    .error (.bufferTooShort 13 bytes.length)
  else
    let length := fromLE (bytes.take 8)
    let checksum := fromLE ((bytes.drop 8).take 4)
    let tag := (bytes.drop 12).headD 0
    if bytes.length < 13 + length then
      .error (.bufferTooShort (13 + length) bytes.length)
    else
      let valueData := (bytes.drop 13).take length
      let actual := crc32 valueData
      if actual ≠ checksum then
        .error (.checksumMismatch checksum actual)
      else
        deserTagDispatch valueData (13 + length) tag

/-- Well-formedness of a value as produced by safe Rust: the text bytes are
the UTF-8 encoding of a `String` (hence valid and bytes), the payload length
fits in `u64`, and an `i64` bit pattern fits in 64 bits. -/
def SValue.Wf : SValue → Prop
  | .str bs => utf8Valid bs = true ∧ (∀ b ∈ bs, b < 256) ∧ 8 + bs.length < 2 ^ 64
  | .int n => n < 2 ^ 64

/-! ## Key codec (`src/backend/src/serialization/key.rs`) -/

/-- `serialize_key` of `src/backend/src/serialization/key.rs`. -/
def serializeKey : SKey → List Nat
  | .str bs => 0x01 :: (toLE 8 bs.length ++ bs)
  | .int n => 0x02 :: toLE 8 n

/-- `deserialize_key` of `src/backend/src/serialization/key.rs`. -/
def deserializeKey (bytes : List Nat) : Except DeserErr (SKey × Nat) :=
  match bytes with
  | [] => .error (.bufferTooShort 1 0)
  | tag :: rest =>
    if tag = 0x01 then
      if bytes.length < 9 then
        .error (.bufferTooShort 9 bytes.length)
      else
        let len := fromLE (rest.take 8)
        if bytes.length < 9 + len then
          .error (.bufferTooShort (9 + len) bytes.length)
        else
          let s := (rest.drop 8).take len
          if utf8Valid s then .ok (.str s, 9 + len) else .error .invalidUtf8
    else if tag = 0x02 then
      if bytes.length < 9 then
        .error (.bufferTooShort 9 bytes.length)
      else
        .ok (.int (fromLE (rest.take 8)), 9)
    else
      .error (.unknownTag tag)

/-- Well-formedness of a key as produced by safe Rust. -/
def SKey.Wf : SKey → Prop
  | .str bs => utf8Valid bs = true ∧ (∀ b ∈ bs, b < 256) ∧ 9 + bs.length < 2 ^ 32
  | .int n => n < 2 ^ 64

deriving instance DecidableEq for Except

/-! ## Generic list helpers -/

theorem take_app {α : Type} {l r : List α} {w : Nat} (h : l.length = w) :
    (l ++ r).take w = l := by
  subst h; exact List.take_left l r

theorem drop_app {α : Type} {l r : List α} {w : Nat} (h : l.length = w) :
    (l ++ r).drop w = r := by
  subst h; exact List.drop_left l r

/-- Association-list lookup, the model of `HashMap::get`. -/
def alookup {α β : Type} [DecidableEq α] : List (α × β) → α → Option β
  | [], _ => none
  | (k, v) :: t, key => if k = key then some v else alookup t key

/-- Association-list insert-or-overwrite, the model of `HashMap::insert`. -/
def ainsert {α β : Type} [DecidableEq α] : List (α × β) → α → β → List (α × β)
  | [], key, v => [(key, v)]
  | (k, w) :: t, key, v => if k = key then (key, v) :: t else (k, w) :: ainsert t key v

/-- Association-list removal, the model of `HashMap::remove`. -/
def aremove {α β : Type} [DecidableEq α] : List (α × β) → α → List (α × β)
  | [], _ => []
  | (k, w) :: t, key => if k = key then t else (k, w) :: aremove t key

theorem alookup_ainsert_self {α β : Type} [DecidableEq α] (l : List (α × β)) (k : α) (v : β) :
    alookup (ainsert l k v) k = some v := by
  induction l with
  | nil => simp [ainsert, alookup]
  | cons hd t ih =>
    by_cases h : hd.1 = k
    · simp [ainsert, h, alookup]
    · simp [ainsert, h, alookup, ih]

theorem alookup_ainsert_ne {α β : Type} [DecidableEq α] (l : List (α × β)) {k k' : α} (v : β)
    (h : k' ≠ k) : alookup (ainsert l k' v) k = alookup l k := by
  induction l with
  | nil => simp [ainsert, alookup, h]
  | cons hd t ih =>
    by_cases hh : hd.1 = k'
    · simp [ainsert, hh, alookup, h]
    · simp only [ainsert, hh, if_false, alookup]
      by_cases hk : hd.1 = k <;> simp [hk, ih]

theorem alookup_aremove_ne {α β : Type} [DecidableEq α] (l : List (α × β)) {k k' : α}
    (h : k' ≠ k) : alookup (aremove l k') k = alookup l k := by
  induction l with
  | nil => simp [aremove]
  | cons hd t ih =>
    by_cases hh : hd.1 = k'
    · simp [aremove, hh, alookup, fun hc : k' = k => h hc]
    · simp only [aremove, hh, if_false, alookup]
      by_cases hk : hd.1 = k <;> simp [hk, ih]

theorem keys_ainsert_mem {α β : Type} [DecidableEq α] (l : List (α × β)) (k : α) (v : β)
    (h : (alookup l k).isSome) : (ainsert l k v).map Prod.fst = l.map Prod.fst := by
  induction l with
  | nil => simp [alookup] at h
  | cons hd t ih =>
    by_cases hh : hd.1 = k
    · simp [ainsert, hh]
    · simp only [alookup, hh, if_false] at h
      simp [ainsert, hh, ih h]

theorem keys_ainsert_fresh {α β : Type} [DecidableEq α] (l : List (α × β)) (k : α) (v : β)
    (h : alookup l k = none) : (ainsert l k v).map Prod.fst = l.map Prod.fst ++ [k] := by
  induction l with
  | nil => simp [ainsert]
  | cons hd t ih =>
    by_cases hh : hd.1 = k
    · simp [alookup, hh] at h
    · simp only [alookup, hh, if_false] at h
      simp [ainsert, hh, ih h]

theorem alookup_eq_none_of_not_mem {α β : Type} [DecidableEq α] (l : List (α × β)) (k : α)
    (h : k ∉ l.map Prod.fst) : alookup l k = none := by
  induction l with
  | nil => rfl
  | cons hd t ih =>
    simp only [List.map_cons, List.mem_cons, not_or] at h
    simp [alookup, fun hc : hd.1 = k => h.1 hc.symm, ih h.2, Ne.symm h.1]

theorem mem_of_alookup_isSome {α β : Type} [DecidableEq α] (l : List (α × β)) (k : α)
    (h : (alookup l k).isSome) : k ∈ l.map Prod.fst := by
  by_contra hc
  rw [alookup_eq_none_of_not_mem l k hc] at h
  simp at h

theorem alookup_isSome_of_mem {α β : Type} [DecidableEq α] (l : List (α × β)) (k : α)
    (h : k ∈ l.map Prod.fst) : (alookup l k).isSome := by
  induction l with
  | nil => simp at h
  | cons hd t ih =>
    by_cases hh : hd.1 = k
    · simp [alookup, hh]
    · simp only [List.map_cons, List.mem_cons] at h
      rcases h with h | h
      · exact absurd h.symm hh
      · simp [alookup, hh, ih h]

theorem nodup_keys_ainsert {α β : Type} [DecidableEq α] (l : List (α × β)) (k : α) (v : β)
    (h : (l.map Prod.fst).Nodup) : ((ainsert l k v).map Prod.fst).Nodup := by
  by_cases hs : (alookup l k).isSome
  · rw [keys_ainsert_mem l k v hs]; exact h
  · have hnone : alookup l k = none := by
      cases hl : alookup l k
      · rfl
      · exact absurd (by simp [hl]) hs
    rw [keys_ainsert_fresh l k v hnone]
    simp only [List.nodup_append, List.nodup_singleton, true_and]
    refine ⟨h, ?_⟩
    intro a ha hb
    simp only [List.mem_singleton] at hb
    subst hb
    have := alookup_isSome_of_mem l a ha
    rw [hnone] at this
    simp at this

theorem nodup_keys_aremove {α β : Type} [DecidableEq α] (l : List (α × β)) (k : α)
    (h : (l.map Prod.fst).Nodup) : ((aremove l k).map Prod.fst).Nodup := by
  induction l with
  | nil => simp [aremove]
  | cons hd t ih =>
    simp only [List.map_cons, List.nodup_cons] at h
    by_cases hh : hd.1 = k
    · simp only [aremove, hh, if_true]; exact h.2
    · simp only [aremove, hh, if_false, List.map_cons, List.nodup_cons]
      refine ⟨fun hc => ?_, ih h.2⟩
      have : (aremove t k).map Prod.fst ⊆ t.map Prod.fst := by
        clear hc ih h
        induction t with
        | nil => simp [aremove]
        | cons hd2 t2 ih2 =>
          by_cases h2 : hd2.1 = k
          · simp only [aremove, h2, if_true, List.map_cons]
            exact fun a ha => List.mem_cons_of_mem _ ha
          · simp only [aremove, h2, if_false, List.map_cons]
            intro a ha
            rcases List.mem_cons.1 ha with h | h
            · exact List.mem_cons.2 (Or.inl h)
            · exact List.mem_cons_of_mem _ (ih2 h)
      exact h.1 (this hc)

/-! ## CRC32 bounds -/

theorem crcStep_lt {s : Nat} (h : s < 2 ^ 32) : crcStep s < 2 ^ 32 := by
  have hhalf : s / 2 < 2 ^ 32 := lt_of_le_of_lt (Nat.div_le_self s 2) h
  unfold crcStep
  split
  · exact Nat.xor_lt_two_pow hhalf (by norm_num)
  · exact hhalf

theorem crcStep_iter_lt {s : Nat} (n : Nat) (h : s < 2 ^ 32) : crcStep^[n] s < 2 ^ 32 := by
  induction n generalizing s with
  | zero => simpa using h
  | succ n ih =>
    rw [Function.iterate_succ_apply]
    exact ih (crcStep_lt h)

theorem crcByte_lt {s b : Nat} (hs : s < 2 ^ 32) (hb : b < 256) : crcByte s b < 2 ^ 32 :=
  crcStep_iter_lt 8 (Nat.xor_lt_two_pow hs (lt_trans hb (by norm_num)))

theorem crc_foldl_lt {l : List Nat} (hl : ∀ b ∈ l, b < 256) {s : Nat} (hs : s < 2 ^ 32) :
    l.foldl crcByte s < 2 ^ 32 := by
  induction l generalizing s with
  | nil => simpa using hs
  | cons b t ih =>
    simp only [List.foldl_cons]
    exact ih (fun x hx => hl x (List.mem_cons_of_mem _ hx))
      (crcByte_lt hs (hl b (List.mem_cons_self _ _)))

theorem crc32_lt {l : List Nat} (hl : ∀ b ∈ l, b < 256) : crc32 l < 2 ^ 32 :=
  Nat.xor_lt_two_pow (crc_foldl_lt hl (by norm_num)) (by norm_num)

/-- All bytes of a well-formed value's payload are bytes. -/
theorem valuePayload_bytes {v : SValue} (hv : v.Wf) : ∀ b ∈ valuePayload v, b < 256 := by
  cases v with
  | str bs =>
    intro b hb
    rcases List.mem_append.1 hb with h | h
    · exact toLE_lt _ _ _ h
    · exact hv.2.1 b h
  | int n =>
    intro b hb
    exact toLE_lt _ _ _ hb

/-! ## Round trip and stability of the value codec -/


theorem pow256 (w : Nat) : (256 : Nat) ^ w = 2 ^ (8 * w) := by
  rw [show (256 : Nat) = 2 ^ 8 by norm_num, ← pow_mul]

/-- Reduction of `deserialize_value` on a length-correct record with an
arbitrary stored checksum `ck` and arbitrary trailing bytes: the length
checks pass and the function either reports the checksum mismatch or reaches
the tag dispatch with exactly the record's payload. -/
theorem deserializeValue_parts (pl rest : List Nat) (ck tg : Nat)
    (hlt : pl.length < 2 ^ 64) (hck : ck < 2 ^ 32) :
    deserializeValue (toLE 8 pl.length ++ toLE 4 ck ++ [tg] ++ pl ++ rest)
      = if crc32 pl = ck then deserTagDispatch pl (13 + pl.length) tg
        else .error (.checksumMismatch ck (crc32 pl)) := by
  set bytes := toLE 8 pl.length ++ toLE 4 ck ++ [tg] ++ pl ++ rest with hbytes
  have h1 : bytes = toLE 8 pl.length ++ (toLE 4 ck ++ (tg :: (pl ++ rest))) := by
    simp [hbytes, List.append_assoc]
  have hlen : bytes.length = 13 + pl.length + rest.length := by
    rw [h1]; simp [toLE_length]; omega
  have htake8 : bytes.take 8 = toLE 8 pl.length := by
    rw [h1]; exact take_app (toLE_length 8 _)
  have htake4 : (bytes.drop 8).take 4 = toLE 4 ck := by
    rw [h1, drop_app (toLE_length 8 _)]; exact take_app (toLE_length 4 _)
  have hdrop12 : bytes.drop 12 = tg :: (pl ++ rest) := by
    have h2 : bytes = (toLE 8 pl.length ++ toLE 4 ck) ++ (tg :: (pl ++ rest)) := by
      simp [hbytes, List.append_assoc]
    rw [h2]; exact drop_app (by simp [toLE_length])
  have hdrop13 : bytes.drop 13 = pl ++ rest := by
    have h3 : bytes = ((toLE 8 pl.length ++ toLE 4 ck) ++ [tg]) ++ (pl ++ rest) := by
      simp [hbytes, List.append_assoc]
    rw [h3]; exact drop_app (by simp [toLE_length])
  have hlenval : fromLE (bytes.take 8) = pl.length := by
    rw [htake8, fromLE_toLE, pow256]
    exact Nat.mod_eq_of_lt (by simpa using hlt)
  have hcksval : fromLE ((bytes.drop 8).take 4) = ck := by
    rw [htake4, fromLE_toLE, pow256]
    exact Nat.mod_eq_of_lt (by simpa using hck)
  have hvdata : (bytes.drop 13).take pl.length = pl := by
    rw [hdrop13]; exact take_app rfl
  rw [deserializeValue]
  rw [if_neg (by omega)]
  simp only [hlenval, hcksval, hdrop12, List.headD_cons, hvdata]
  rw [if_neg (by omega)]
  by_cases hc : crc32 pl = ck
  · rw [if_neg (by simp [hc]), if_pos hc]
  · rw [if_pos (by simp [hc]), if_neg hc]

/-- Reduction of `deserialize_value` on a well-formed record followed by
arbitrary trailing bytes: the header checks pass and the function reaches the
tag dispatch with exactly the record's payload. -/
theorem deserializeValue_record (pl rest : List Nat) (tg : Nat)
    (hlt : pl.length < 2 ^ 64) (hb : ∀ b ∈ pl, b < 256) :
    deserializeValue (toLE 8 pl.length ++ toLE 4 (crc32 pl) ++ [tg] ++ pl ++ rest)
      = deserTagDispatch pl (13 + pl.length) tg := by
  rw [deserializeValue_parts pl rest (crc32 pl) tg hlt (crc32_lt hb), if_pos rfl]

/-- Deserializing a freshly serialized well-formed value recovers it, with any
trailing bytes ignored (`deserialize_value` reads only its own record). -/
theorem deserializeValue_serializeValue (v : SValue) (hv : v.Wf) (rest : List Nat) :
    deserializeValue (serializeValue v ++ rest) =
      .ok (v.toEntry, 13 + (valuePayload v).length) := by
  have hser : serializeValue v ++ rest
      = toLE 8 (valuePayload v).length ++ toLE 4 (crc32 (valuePayload v)) ++ [valueTag v]
        ++ valuePayload v ++ rest := by
    simp [serializeValue, List.append_assoc]
  cases v with
  | str bs =>
    have hpllen : (valuePayload (SValue.str bs)).length = 8 + bs.length := by
      simp [valuePayload, toLE_length]
    rw [hser, deserializeValue_record _ _ _ (by rw [hpllen]; exact hv.2.2)
      (valuePayload_bytes hv)]
    have htke : (valuePayload (SValue.str bs)).take 8 = toLE 8 bs.length := by
      simp only [valuePayload]; exact take_app (toLE_length 8 _)
    have hdrp : (valuePayload (SValue.str bs)).drop 8 = bs := by
      simp only [valuePayload]; exact drop_app (toLE_length 8 _)
    have hlen2 : fromLE ((valuePayload (SValue.str bs)).take 8) = bs.length := by
      rw [htke, fromLE_toLE, pow256]
      exact Nat.mod_eq_of_lt (by have := hv.2.2; simpa using (by omega : bs.length < 2 ^ 64))
    rw [show valueTag (SValue.str bs) = 1 from rfl, deserTagDispatch]
    rw [if_pos (show (1 : Nat) = 1 from rfl), if_neg (by omega)]
    simp only [hlen2]
    rw [if_neg (by omega), hdrp, List.take_of_length_le (le_refl _), if_pos hv.1]
    rfl
  | int n =>
    have hpllen : (valuePayload (SValue.int n)).length = 8 := by
      simp [valuePayload, toLE_length]
    rw [hser, deserializeValue_record _ _ _ (by rw [hpllen]; norm_num)
      (valuePayload_bytes hv)]
    rw [show valueTag (SValue.int n) = 2 from rfl, deserTagDispatch]
    rw [if_neg (by norm_num), if_pos (show (2 : Nat) = 2 from rfl), if_neg (by omega)]
    simp only [valuePayload, List.take_of_length_le (le_of_eq (toLE_length 8 n)), fromLE_toLE,
      pow256]
    rw [Nat.mod_eq_of_lt (by simpa using hv)]
    rfl

theorem deserTagDispatch_ok_consumed {vd : List Nat} {c t n : Nat} {e : SEntry}
    (h : deserTagDispatch vd c t = .ok (e, n)) : n = c := by
  simp only [deserTagDispatch] at h
  split_ifs at h <;> simp_all

theorem deserializeValue_ok_checks {b : List Nat} {e : SEntry} {n : Nat}
    (h : deserializeValue b = .ok (e, n)) :
    ¬ b.length < 13 ∧ ¬ b.length < 13 + fromLE (b.take 8) ∧ n = 13 + fromLE (b.take 8) := by
  rw [deserializeValue] at h
  by_cases h13 : b.length < 13
  · rw [if_pos h13] at h; exact absurd h (by simp)
  · rw [if_neg h13] at h
    by_cases hlen : b.length < 13 + fromLE (b.take 8)
    · rw [if_pos hlen] at h; exact absurd h (by simp)
    · rw [if_neg hlen] at h
      simp only [ne_eq] at h
      split_ifs at h with hck
      all_goals
        first
          | exact ⟨h13, hlen, deserTagDispatch_ok_consumed h⟩
          | simp at h

/-- The record bounds implied by a successful deserialization. -/
theorem deserializeValue_ok_le {b : List Nat} {e : SEntry} {n : Nat}
    (h : deserializeValue b = .ok (e, n)) : 13 ≤ n ∧ n ≤ b.length := by
  obtain ⟨h13, hlen, hn⟩ := deserializeValue_ok_checks h
  omega

/-- `deserialize_value` only looks at the first `13 + header.length` bytes:
its result agrees on two buffers whose header and payload regions coincide. -/
theorem deserializeValue_congr (b b' : List Nat)
    (h13 : ¬ b.length < 13) (h13' : ¬ b'.length < 13)
    (ht8 : b'.take 8 = b.take 8)
    (ht4 : (b'.drop 8).take 4 = (b.drop 8).take 4)
    (ht12 : (b'.drop 12).headD 0 = (b.drop 12).headD 0)
    (hlen : ¬ b.length < 13 + fromLE (b.take 8))
    (hlen' : ¬ b'.length < 13 + fromLE (b.take 8))
    (hvd : (b'.drop 13).take (fromLE (b.take 8)) = (b.drop 13).take (fromLE (b.take 8))) :
    deserializeValue b' = deserializeValue b := by
  rw [deserializeValue, deserializeValue, if_neg h13, if_neg h13']
  simp only [ht8, ht4, ht12, hvd]
  rw [if_neg hlen, if_neg hlen']

theorem headD_append_of_ne_nil {l r : List Nat} (h : l ≠ []) (d : Nat) :
    (l ++ r).headD d = l.headD d := by
  cases l with
  | nil => exact absurd rfl h
  | cons a t => rfl

theorem headD_take_of_pos {l : List Nat} {m : Nat} (hm : 0 < m) (d : Nat) :
    (l.take m).headD d = l.headD d := by
  cases l with
  | nil => simp
  | cons a t => cases m with
    | zero => omega
    | succ m => rfl

/-- Appending bytes after a successfully deserialized record does not change
the result. -/
theorem deserializeValue_append {b : List Nat} {e : SEntry} {n : Nat}
    (h : deserializeValue b = .ok (e, n)) (extra : List Nat) :
    deserializeValue (b ++ extra) = .ok (e, n) := by
  obtain ⟨h13, hlen, hn⟩ := deserializeValue_ok_checks h
  rw [← h]
  apply deserializeValue_congr
  · exact h13
  · simp only [List.length_append]; omega
  · exact List.take_append_of_le_length (by omega)
  · rw [List.drop_append_of_le_length (by omega)]
    exact List.take_append_of_le_length (by simp [List.length_drop]; omega)
  · rw [List.drop_append_of_le_length (by omega)]
    exact headD_append_of_ne_nil (by
      intro hc
      have := congrArg List.length hc
      simp [List.length_drop] at this
      omega) 0
  · exact hlen
  · simp only [List.length_append]; omega
  · rw [List.drop_append_of_le_length (by omega)]
    exact List.take_append_of_le_length (by simp [List.length_drop]; omega)

/-- Truncating a buffer to exactly the consumed size of a successfully
deserialized record does not change the result. -/
theorem deserializeValue_take {b : List Nat} {e : SEntry} {n : Nat}
    (h : deserializeValue b = .ok (e, n)) :
    deserializeValue (b.take n) = .ok (e, n) := by
  obtain ⟨h13, hlen, hn⟩ := deserializeValue_ok_checks h
  rw [← h]
  apply deserializeValue_congr
  · exact h13
  · simp only [List.length_take]; omega
  · rw [List.take_take]
    congr 1
    omega
  · rw [List.drop_take, List.take_take]
    congr 1
    omega
  · rw [List.drop_take]
    exact headD_take_of_pos (by omega) 0
  · exact hlen
  · simp only [List.length_take]; omega
  · rw [List.drop_take, List.take_take]
    congr 1
    omega

/-! ## The log store (`src/backend/src/store.rs`)

`Store.index : HashMap<Key, usize>` is modelled as an association list with
pairwise-distinct keys (`HashMap` semantics: one binding per key, unspecified
iteration order); `Store.data : Vec<u8>` is the byte buffer.  The `path`
field and the snapshot I/O around it are not part of the in-memory ops. -/

structure Store where
  index : List (SKey × Nat)
  data : List Nat
deriving DecidableEq

/-- `Store::new`. -/
def Store.new : Store := { index := [], data := [] }

/-- `Store::put` (`store.rs` lines 26-31): append the serialized record at
`pos = data.len()` and point the index at it. -/
def storePut (s : Store) (k : SKey) (v : SValue) : Store :=
  { index := ainsert s.index k s.data.length,
    data := s.data ++ serializeValue v }

/-- `Store::get` (`store.rs` lines 33-57). -/
def storeGet (s : Store) (k : SKey) : Except StoreErr SEntry :=
  match alookup s.index k with
  | none => .error (.keyNotFound k)
  | some pos =>
    if s.data.length ≤ pos then
      .error (.invalidData (.bufferTooShort (pos + 1) s.data.length))
    else
      match deserializeValue (s.data.drop pos) with
      | .error (.checksumMismatch e a) => .error (.dataCorruption (.checksumMismatch e a))
      | .error c => .error (.invalidData c)
      | .ok (entry, _) => .ok entry

/-- `Store::delete` (`store.rs` lines 58-62). -/
def storeDelete (s : Store) (k : SKey) : Except StoreErr Store :=
  match alookup s.index k with
  | none => .error (.keyNotFound k)
  | some _ => .ok { s with index := aremove s.index k }

/-- The loop body of `Store::compact` (`store.rs` lines 63-83): for each live
entry, deserialize at its old offset, copy its record bytes into the new
buffer and record the new offset. -/
def compactGo (data : List Nat) :
    List (SKey × Nat) → List Nat → List (SKey × Nat) →
    Except StoreErr (List Nat × List (SKey × Nat))
  | [], newData, newIndex => .ok (newData, newIndex)
  | (k, off) :: rest, newData, newIndex =>
    match deserializeValue (data.drop off) with
    | .error cause => .error (.invalidData cause)
    | .ok (_, bytesToCopy) =>
      compactGo data rest (newData ++ (data.drop off).take bytesToCopy)
        (ainsert newIndex k newData.length)

/-- `Store::compact`: on success commits the new buffer and index and returns
`old_size - new_data.len()` (usize subtraction, which wraps in release
builds — modelled by the explicit `% 2 ^ 64`). -/
def storeCompact (s : Store) : Except StoreErr (Store × Nat) :=
  match compactGo s.data s.index [] [] with
  | .error e => .error e
  | .ok (newData, newIndex) =>
    .ok ({ index := newIndex, data := newData },
      (s.data.length + 2 ^ 64 - newData.length) % 2 ^ 64)

/-- `Store::clear` (`store.rs` lines 85-88). -/
def storeClear (_ : Store) : Store := { index := [], data := [] }

/-- The mutating public store operations a caller can run after a `put`.
`get` is read-only and `save`/`load` only touch the snapshot files. -/
inductive StoreOp where
  | put (k : SKey) (v : SValue)
  | del (k : SKey)
  | compact
  | clear
deriving DecidableEq

/-- Apply one operation.  A failing `delete` or `compact` returns early in
Rust and leaves the store unchanged, which is what the fallback arms model. -/
def applyOp (s : Store) : StoreOp → Store
  | .put k v => storePut s k v
  | .del k =>
    match storeDelete s k with
    | .ok s' => s'
    | .error _ => s
  | .compact =>
    match storeCompact s with
    | .ok (s', _) => s'
    | .error _ => s
  | .clear => storeClear s

/-- Apply a sequence of operations left to right. -/
def applyOps (s : Store) (ops : List StoreOp) : Store :=
  ops.foldl applyOp s

theorem serializeValue_length (v : SValue) :
    (serializeValue v).length = 13 + (valuePayload v).length := by
  simp [serializeValue, toLE_length]
  omega

/-! ## Persistence of a stored binding (towards get-after-put) -/

/-- Key `k` is live in `s` and deserializing at its offset yields entry `e`
with consumed size `n`. -/
def GoodAt (s : Store) (k : SKey) (e : SEntry) (n : Nat) : Prop :=
  ∃ off, alookup s.index k = some off ∧ off < s.data.length ∧
    deserializeValue (s.data.drop off) = .ok (e, n)

theorem goodAt_put_self (s : Store) (k : SKey) (v : SValue) (hv : v.Wf) :
    GoodAt (storePut s k v) k v.toEntry (13 + (valuePayload v).length) := by
  refine ⟨s.data.length, ?_, ?_, ?_⟩
  · exact alookup_ainsert_self _ _ _
  · simp only [storePut, List.length_append, serializeValue_length]
    omega
  · simp only [storePut]
    rw [List.drop_append_of_le_length (le_refl _), List.drop_of_length_le (le_refl _),
      List.nil_append]
    have := deserializeValue_serializeValue v hv []
    simpa using this

theorem goodAt_put_other (s : Store) {k k' : SKey} (v : SValue) {e : SEntry} {n : Nat}
    (hne : k' ≠ k) (h : GoodAt s k e n) : GoodAt (storePut s k' v) k e n := by
  obtain ⟨off, hl, hlt, hd⟩ := h
  refine ⟨off, ?_, ?_, ?_⟩
  · rw [storePut]
    simpa using (alookup_ainsert_ne s.index _ hne).trans hl
  · simp only [storePut, List.length_append]
    omega
  · simp only [storePut]
    rw [List.drop_append_of_le_length (le_of_lt hlt)]
    exact deserializeValue_append hd _

theorem goodAt_delete_other (s : Store) {k k' : SKey} {e : SEntry} {n : Nat}
    (hne : k' ≠ k) (h : GoodAt s k e n) :
    GoodAt (match storeDelete s k' with | .ok s' => s' | .error _ => s) k e n := by
  obtain ⟨off, hl, hlt, hd⟩ := h
  rw [storeDelete]
  cases hlk : alookup s.index k' with
  | none => exact ⟨off, hl, hlt, hd⟩
  | some p =>
    exact ⟨off, by rw [alookup_aremove_ne s.index hne]; exact hl, hlt, hd⟩

theorem compactGo_acc_preserved (data : List Nat) :
    ∀ (entries : List (SKey × Nat)) (nd : List Nat) (ni : List (SKey × Nat))
      (nd' : List Nat) (ni' : List (SKey × Nat)) (k : SKey) (off' : Nat) (e : SEntry) (n : Nat),
      k ∉ entries.map Prod.fst →
      alookup ni k = some off' →
      off' < nd.length →
      deserializeValue (nd.drop off') = .ok (e, n) →
      compactGo data entries nd ni = .ok (nd', ni') →
      alookup ni' k = some off' ∧ off' < nd'.length ∧
        deserializeValue (nd'.drop off') = .ok (e, n) := by
  intro entries
  induction entries with
  | nil =>
    intro nd ni nd' ni' k off' e n _ hni hoff hdes hok
    simp only [compactGo] at hok
    obtain ⟨h1, h2⟩ : nd = nd' ∧ ni = ni' := by
      cases hok; exact ⟨rfl, rfl⟩
    subst h1; subst h2
    exact ⟨hni, hoff, hdes⟩
  | cons hd rest ih =>
    intro nd ni nd' ni' k off' e n hk hni hoff hdes hok
    obtain ⟨k2, off2⟩ := hd
    simp only [List.map_cons, List.mem_cons, not_or] at hk
    simp only [compactGo] at hok
    cases hdes2 : deserializeValue (data.drop off2) with
    | error c => rw [hdes2] at hok; exact absurd hok (by simp)
    | ok p =>
      rw [hdes2] at hok
      refine ih _ _ _ _ _ _ _ _ (hk.2) ?_ ?_ ?_ hok
      · rw [alookup_ainsert_ne _ _ (fun hc => hk.1 hc.symm)]
        exact hni
      · simp only [List.length_append]
        omega
      · rw [List.drop_append_of_le_length (le_of_lt hoff)]
        exact deserializeValue_append hdes _

theorem compactGo_reaches (data : List Nat) :
    ∀ (entries : List (SKey × Nat)) (nd : List Nat) (ni : List (SKey × Nat))
      (nd' : List Nat) (ni' : List (SKey × Nat)) (k : SKey) (off : Nat) (e : SEntry) (n : Nat),
      (entries.map Prod.fst).Nodup →
      alookup entries k = some off →
      alookup ni k = none →
      deserializeValue (data.drop off) = .ok (e, n) →
      compactGo data entries nd ni = .ok (nd', ni') →
      ∃ off', alookup ni' k = some off' ∧ off' < nd'.length ∧
        deserializeValue (nd'.drop off') = .ok (e, n) := by
  intro entries
  induction entries with
  | nil =>
    intro nd ni nd' ni' k off e n _ hfst _ _ _
    simp [alookup] at hfst
  | cons hd rest ih =>
    intro nd ni nd' ni' k off e n hnodup hfst hni hdes hok
    obtain ⟨k2, off2⟩ := hd
    simp only [List.map_cons, List.nodup_cons] at hnodup
    simp only [compactGo] at hok
    by_cases hk2 : k2 = k
    · subst hk2
      simp only [alookup, if_pos rfl] at hfst
      cases hfst
      rw [hdes] at hok
      have hcopy : deserializeValue ((nd ++ (data.drop off).take n).drop nd.length)
          = .ok (e, n) := by
        rw [List.drop_append_of_le_length (le_refl _), List.drop_of_length_le (le_refl _),
          List.nil_append]
        exact deserializeValue_take hdes
      have hlen : nd.length < (nd ++ (data.drop off).take n).length := by
        have h13 := (deserializeValue_ok_le hdes).1
        have hle := (deserializeValue_ok_le hdes).2
        simp only [List.length_append, List.length_take]
        omega
      exact ⟨nd.length,
        compactGo_acc_preserved data rest _ _ _ _ _ _ _ _ hnodup.1
          (alookup_ainsert_self _ _ _) hlen hcopy hok⟩
    · simp only [alookup, if_neg hk2] at hfst
      cases hdes2 : deserializeValue (data.drop off2) with
      | error c => rw [hdes2] at hok; exact absurd hok (by simp)
      | ok p =>
        rw [hdes2] at hok
        refine ih _ _ _ _ _ _ _ _ hnodup.2 hfst ?_ hdes hok
        rw [alookup_ainsert_ne _ _ (Ne.symm (fun hc => hk2 hc.symm))]
        exact hni

theorem goodAt_compact (s : Store) {k : SKey} {e : SEntry} {n : Nat}
    (hnodup : (s.index.map Prod.fst).Nodup) (h : GoodAt s k e n) :
    GoodAt (match storeCompact s with | .ok (s', _) => s' | .error _ => s) k e n := by
  obtain ⟨off, hl, hlt, hd⟩ := h
  rw [storeCompact]
  cases hgo : compactGo s.data s.index [] [] with
  | error err => exact ⟨off, hl, hlt, hd⟩
  | ok p =>
    obtain ⟨nd', ni'⟩ := p
    obtain ⟨off', h1, h2, h3⟩ :=
      compactGo_reaches s.data s.index [] [] nd' ni' k off e n hnodup hl rfl hd hgo
    exact ⟨off', h1, h2, h3⟩

theorem compactGo_nodup (data : List Nat) :
    ∀ (entries : List (SKey × Nat)) (nd : List Nat) (ni : List (SKey × Nat))
      (nd' : List Nat) (ni' : List (SKey × Nat)),
      (ni.map Prod.fst).Nodup →
      compactGo data entries nd ni = .ok (nd', ni') →
      (ni'.map Prod.fst).Nodup := by
  intro entries
  induction entries with
  | nil =>
    intro nd ni nd' ni' hni hok
    simp only [compactGo] at hok
    obtain ⟨-, h2⟩ : nd = nd' ∧ ni = ni' := by cases hok; exact ⟨rfl, rfl⟩
    subst h2
    exact hni
  | cons hd rest ih =>
    intro nd ni nd' ni' hni hok
    obtain ⟨k2, off2⟩ := hd
    simp only [compactGo] at hok
    cases hdes2 : deserializeValue (data.drop off2) with
    | error c => rw [hdes2] at hok; exact absurd hok (by simp)
    | ok p =>
      rw [hdes2] at hok
      exact ih _ _ _ _ (nodup_keys_ainsert _ _ _ hni) hok

theorem nodup_applyOp (s : Store) (op : StoreOp) (h : (s.index.map Prod.fst).Nodup) :
    (((applyOp s op).index.map Prod.fst)).Nodup := by
  cases op with
  | put k v => exact nodup_keys_ainsert _ _ _ h
  | del k =>
    simp only [applyOp, storeDelete]
    cases alookup s.index k with
    | none => exact h
    | some p => exact nodup_keys_aremove _ _ h
  | compact =>
    simp only [applyOp, storeCompact]
    cases hgo : compactGo s.data s.index [] [] with
    | error e => exact h
    | ok p =>
      obtain ⟨nd', ni'⟩ := p
      exact compactGo_nodup s.data s.index [] [] nd' ni' (by simp) hgo
  | clear => simp [applyOp, storeClear]

/-- The operations that the get-after-put claim allows between the `put` and
the `get`: anything except `put(K, _)`, `delete(K)` and `clear()`. -/
def OpAvoids (k : SKey) : StoreOp → Prop
  | .put k' _ => k' ≠ k
  | .del k' => k' ≠ k
  | .compact => True
  | .clear => False

theorem goodAt_applyOp {s : Store} {k : SKey} {e : SEntry} {n : Nat} (op : StoreOp)
    (hop : OpAvoids k op) (hnodup : (s.index.map Prod.fst).Nodup)
    (h : GoodAt s k e n) : GoodAt (applyOp s op) k e n := by
  cases op with
  | put k' v => exact goodAt_put_other s v hop h
  | del k' => exact goodAt_delete_other s hop h
  | compact => exact goodAt_compact s hnodup h
  | clear => exact absurd hop (by simp [OpAvoids])

theorem goodAt_applyOps {s : Store} {k : SKey} {e : SEntry} {n : Nat} (ops : List StoreOp)
    (hops : ∀ op ∈ ops, OpAvoids k op) (hnodup : (s.index.map Prod.fst).Nodup)
    (h : GoodAt s k e n) : GoodAt (applyOps s ops) k e n := by
  induction ops generalizing s with
  | nil => simpa [applyOps] using h
  | cons op rest ih =>
    simp only [applyOps, List.foldl_cons]
    exact ih (fun o ho => hops o (List.mem_cons_of_mem _ ho))
      (nodup_applyOp s op hnodup)
      (goodAt_applyOp op (hops op (List.mem_cons_self _ _)) hnodup h)

theorem storeGet_of_goodAt {s : Store} {k : SKey} {e : SEntry} {n : Nat}
    (h : GoodAt s k e n) : storeGet s k = .ok e := by
  obtain ⟨off, hl, hlt, hd⟩ := h
  simp only [storeGet, hl, hd]
  rw [if_neg (by omega)]

/-! ## Claim C1: get-after-put -/

/-- Claim C1, counterexample: the claim as stated quantifies over any further
operations that are not `put(K, _)` or `delete(K)`; `clear()` is such an
operation, yet after `put(K, V); clear()` the `get(K)` no longer returns `V`
(it returns `KeyNotFound`). -/
theorem c1_get_after_put_cex :
    storeGet (applyOps (storePut Store.new (.str [107]) (.int 5)) [.clear]) (.str [107])
      ≠ .ok ((SValue.int 5).toEntry) := by
  decide

/-- Claim C1 (amended): after `put(K, V)` on any store, `get(K)` returns an
entry equal to `V`, and this remains true after any further `put`/`delete` of
other keys and any number of `compact()`s — that is, until the next
`put(K, _)`, `delete(K)` or `clear()`. -/
theorem c1_get_after_put (s : Store) (k : SKey) (v : SValue) (hv : v.Wf)
    (hnodup : (s.index.map Prod.fst).Nodup) (ops : List StoreOp)
    (hops : ∀ op ∈ ops, OpAvoids k op) :
    storeGet (applyOps (storePut s k v) ops) k = .ok v.toEntry :=
  storeGet_of_goodAt
    (goodAt_applyOps ops hops (nodup_keys_ainsert _ _ _ hnodup) (goodAt_put_self s k v hv))

set_option maxRecDepth 40000 in
/-- Claim C1, witness: a concrete store, value and operation sequence
(a put of another key, a compaction and a delete of another key). -/
theorem c1_get_after_put_witness :
    (SValue.str [104, 105]).Wf ∧
      storeGet
        (applyOps (storePut Store.new (.str [107]) (.str [104, 105]))
          [.put (.int 5) (.int 9), .compact, .del (.int 5)])
        (.str [107]) = .ok ((SValue.str [104, 105]).toEntry) :=
  ⟨by constructor; · decide
      constructor; · decide
      · norm_num,
   c1_get_after_put Store.new (.str [107]) (.str [104, 105])
    (by constructor; · decide
        constructor; · decide
        · norm_num)
    (by simp [Store.new])
    [.put (.int 5) (.int 9), .compact, .del (.int 5)]
    (by intro op hop
        simp only [List.mem_cons, List.not_mem_nil, or_false] at hop
        rcases hop with h | h | h <;> subst h <;> simp [OpAvoids])⟩

/-! ## Claim C2: compaction -/

/-- Size of the record deserialized at `off` in `data` (0 if invalid). -/
def recSizeAt (data : List Nat) (off : Nat) : Nat :=
  match deserializeValue (data.drop off) with
  | .ok (_, n) => n
  | .error _ => 0

/-- Well-formedness of a store as maintained by `put`/`delete`/`compact`:
unique index keys, every live offset holds a well-formed record, the live
records occupy pairwise-disjoint regions of the buffer, and the buffer fits
in a `usize`. -/
def StoreWf (s : Store) : Prop :=
  (s.index.map Prod.fst).Nodup ∧
  s.data.length < 2 ^ 64 ∧
  (∀ p ∈ s.index, (deserializeValue (s.data.drop p.2)).isOk = true) ∧
  s.index.Pairwise (fun a b =>
    a.2 + recSizeAt s.data a.2 ≤ b.2 ∨ b.2 + recSizeAt s.data b.2 ≤ a.2)

theorem recSizeAt_of_ok {data : List Nat} {off n : Nat} {e : SEntry}
    (h : deserializeValue (data.drop off) = .ok (e, n)) : recSizeAt data off = n := by
  rw [recSizeAt, h]

/-- A live record's span lies inside the buffer. -/
theorem span_in_data {data : List Nat} {off n : Nat} {e : SEntry}
    (h : deserializeValue (data.drop off) = .ok (e, n)) :
    off < data.length ∧ off + n ≤ data.length ∧ 13 ≤ n := by
  have hle := deserializeValue_ok_le h
  have hlen : (data.drop off).length = data.length - off := List.length_drop off data
  have hoff : off < data.length := by
    by_contra hc
    push_neg at hc
    have : (data.drop off).length = 0 := by omega
    omega
  exact ⟨hoff, by omega, hle.1⟩

/-- The interval set covered by the live records of an index. -/
def spanUnion (data : List Nat) : List (SKey × Nat) → Finset Nat
  | [] => ∅
  | p :: rest => Finset.Ico p.2 (p.2 + recSizeAt data p.2) ∪ spanUnion data rest

theorem mem_spanUnion {data : List Nat} {entries : List (SKey × Nat)} {x : Nat} :
    x ∈ spanUnion data entries ↔
      ∃ p ∈ entries, x ∈ Finset.Ico p.2 (p.2 + recSizeAt data p.2) := by
  induction entries with
  | nil => simp [spanUnion]
  | cons hd rest ih => simp [spanUnion, ih]

theorem spanUnion_card {data : List Nat} {entries : List (SKey × Nat)}
    (hdisj : entries.Pairwise (fun a b =>
      a.2 + recSizeAt data a.2 ≤ b.2 ∨ b.2 + recSizeAt data b.2 ≤ a.2)) :
    (spanUnion data entries).card = (entries.map (fun p => recSizeAt data p.2)).sum := by
  induction entries with
  | nil => simp [spanUnion]
  | cons hd rest ih =>
    rw [List.pairwise_cons] at hdisj
    have hdis : Disjoint (Finset.Ico hd.2 (hd.2 + recSizeAt data hd.2))
        (spanUnion data rest) := by
      rw [Finset.disjoint_left]
      intro x hx hx2
      rw [mem_spanUnion] at hx2
      obtain ⟨q, hq, hxq⟩ := hx2
      have := hdisj.1 q hq
      simp only [Finset.mem_Ico] at hx hxq
      omega
    rw [spanUnion, Finset.card_union_of_disjoint hdis, ih hdisj.2, Nat.card_Ico]
    simp

theorem spanUnion_subset_range {data : List Nat} {entries : List (SKey × Nat)}
    (hdes : ∀ p ∈ entries, ∃ e n, deserializeValue (data.drop p.2) = .ok (e, n)) :
    spanUnion data entries ⊆ Finset.range data.length := by
  intro x hx
  rw [mem_spanUnion] at hx
  obtain ⟨p, hp, hxp⟩ := hx
  obtain ⟨e, n, hok⟩ := hdes p hp
  have hspan := span_in_data hok
  rw [recSizeAt_of_ok hok] at hxp
  simp only [Finset.mem_Ico] at hxp
  simp only [Finset.mem_range]
  omega

/-- Pairwise-disjoint live records cannot cover more than the buffer. -/
theorem sizes_sum_le {data : List Nat} {entries : List (SKey × Nat)}
    (hdes : ∀ p ∈ entries, ∃ e n, deserializeValue (data.drop p.2) = .ok (e, n))
    (hdisj : entries.Pairwise (fun a b =>
      a.2 + recSizeAt data a.2 ≤ b.2 ∨ b.2 + recSizeAt data b.2 ≤ a.2)) :
    (entries.map (fun p => recSizeAt data p.2)).sum ≤ data.length := by
  rw [← spanUnion_card hdisj]
  calc (spanUnion data entries).card
      ≤ (Finset.range data.length).card := Finset.card_le_card (spanUnion_subset_range hdes)
    _ = data.length := Finset.card_range _

/-- With every live record deserializable, `compact`'s loop succeeds and the
new buffer's size is the sum of the copied record sizes. -/
theorem compactGo_ok_of_deser (data : List Nat) :
    ∀ (entries : List (SKey × Nat)) (nd : List Nat) (ni : List (SKey × Nat)),
      (∀ p ∈ entries, ∃ e n, deserializeValue (data.drop p.2) = .ok (e, n)) →
      ∃ nd' ni', compactGo data entries nd ni = .ok (nd', ni') ∧
        nd'.length = nd.length + (entries.map (fun p => recSizeAt data p.2)).sum := by
  intro entries
  induction entries with
  | nil =>
    intro nd ni _
    exact ⟨nd, ni, rfl, by simp⟩
  | cons hd rest ih =>
    intro nd ni hdes
    obtain ⟨e, n, hok⟩ := hdes hd (List.mem_cons_self _ _)
    obtain ⟨nd', ni', hgo, hlen⟩ := ih (nd ++ (data.drop hd.2).take n)
      (ainsert ni hd.1 nd.length) (fun p hp => hdes p (List.mem_cons_of_mem _ hp))
    refine ⟨nd', ni', ?_, ?_⟩
    · obtain ⟨k2, off2⟩ := hd
      simp only [compactGo]
      rw [hok]
      exact hgo
    · have hspan := span_in_data hok
      rw [hlen]
      simp only [List.length_append, List.length_take, List.length_drop, List.map_cons,
        List.sum_cons, recSizeAt_of_ok hok]
      omega

theorem alookup_mem {α β : Type} [DecidableEq α] {l : List (α × β)} {k : α} {v : β}
    (h : alookup l k = some v) : (k, v) ∈ l := by
  induction l with
  | nil => simp [alookup] at h
  | cons hd t ih =>
    obtain ⟨k1, v1⟩ := hd
    by_cases hh : k1 = k
    · subst hh
      simp only [alookup, if_pos rfl] at h
      cases h
      exact List.mem_cons_self _ _
    · simp only [alookup, hh, if_false] at h
      exact List.mem_cons_of_mem _ (ih h)

theorem exists_ok_of_isOk {b : List Nat} (h : (deserializeValue b).isOk = true) :
    ∃ e n, deserializeValue b = .ok (e, n) := by
  cases hd : deserializeValue b with
  | error c => rw [hd] at h; simp [Except.isOk, Except.toBool] at h
  | ok p =>
    obtain ⟨e, n⟩ := p
    exact ⟨e, n, rfl⟩

/-- Claim C2 (amended): on every well-formed store — unique keys, every live
offset a valid record, live records pairwise disjoint in the buffer (as holds
for all stores built by `put`/`delete`/`compact`) — `compact()` succeeds,
preserves `get` on every live key, does not grow the buffer, and returns
exactly the number of bytes reclaimed. -/
theorem c2_compact_preserves (s : Store) (h : StoreWf s) :
    ∃ s' r, storeCompact s = .ok (s', r) ∧
      (∀ k, (alookup s.index k).isSome → storeGet s' k = storeGet s k) ∧
      s'.data.length ≤ s.data.length ∧
      r = s.data.length - s'.data.length := by
  obtain ⟨hnodup, hfits, hdes0, hdisj⟩ := h
  have hdes : ∀ p ∈ s.index, ∃ e n, deserializeValue (s.data.drop p.2) = .ok (e, n) :=
    fun p hp => exists_ok_of_isOk (hdes0 p hp)
  obtain ⟨nd', ni', hgo, hlen⟩ := compactGo_ok_of_deser s.data s.index [] [] hdes
  have hsum := sizes_sum_le hdes hdisj
  have hndlen : nd'.length ≤ s.data.length := by
    rw [hlen]; simpa using hsum
  refine ⟨{ index := ni', data := nd' }, s.data.length - nd'.length, ?_, ?_, hndlen, rfl⟩
  · have hmod : (s.data.length + 2 ^ 64 - nd'.length) % 2 ^ 64
        = s.data.length - nd'.length := by
      have h1 : s.data.length + 2 ^ 64 - nd'.length
          = (s.data.length - nd'.length) + 2 ^ 64 := by omega
      rw [h1, Nat.add_mod_right]
      exact Nat.mod_eq_of_lt (by omega)
    simp only [storeCompact, hgo, hmod]
  · intro k hk
    cases hlk : alookup s.index k with
    | none => rw [hlk] at hk; simp at hk
    | some off =>
      have hmem := alookup_mem hlk
      obtain ⟨e, n, hok⟩ := hdes (k, off) hmem
      obtain ⟨off', h1, h2, h3⟩ :=
        compactGo_reaches s.data s.index [] [] nd' ni' k off e n hnodup hlk rfl hok hgo
      rw [storeGet_of_goodAt (s := { index := ni', data := nd' }) ⟨off', h1, h2, h3⟩,
        storeGet_of_goodAt ⟨off, hlk, (span_in_data hok).1, hok⟩]

/-- A store reachable through `load` with two keys aliasing the same offset:
both index entries point at the single record at offset 0. -/
def c2CexStore : Store :=
  { index := [(.int 1, 0), (.int 2, 0)], data := serializeValue (.int 7) }

set_option maxRecDepth 40000 in
/-- Claim C2, counterexample: on `c2CexStore` (a `Store` value whose two keys
alias one record, constructible via `Store::load` from crafted snapshot
files) `compact()` succeeds but the data buffer grows from 21 to 42 bytes,
and the returned "reclaimed" count is the wrapped `usize` value
`2 ^ 64 - 21`, not `|D_old| - |D_new|`. -/
theorem c2_compact_cex :
    (storeCompact c2CexStore).map (fun p => (p.1.data.length, p.2))
        = .ok (42, 2 ^ 64 - 21) ∧
      c2CexStore.data.length = 21 := by
  constructor
  · decide
  · decide

/-- A well-formed two-record store built by two puts. -/
def c2WitStore : Store := storePut (storePut Store.new (.int 1) (.int 5)) (.int 2) (.int 6)

set_option maxRecDepth 40000 in
/-- Claim C2, witness: the amended theorem applied to `c2WitStore`. -/
theorem c2_compact_preserves_witness :
    StoreWf c2WitStore ∧
      ∃ s' r, storeCompact c2WitStore = .ok (s', r) ∧
        (∀ k, (alookup c2WitStore.index k).isSome → storeGet s' k = storeGet c2WitStore k) ∧
        s'.data.length ≤ c2WitStore.data.length ∧
        r = c2WitStore.data.length - s'.data.length :=
  ⟨⟨by decide, by decide, by decide, by decide⟩,
   c2_compact_preserves c2WitStore ⟨by decide, by decide, by decide, by decide⟩⟩

/-! ## Claim C8: CRC sensitivity to single-bit flips -/

theorem xor_right_cancel_nat {a b c : Nat} (h : a ^^^ c = b ^^^ c) : a = b := by
  have ha : a ^^^ c ^^^ c = a := Nat.xor_cancel_right c a
  have hb : b ^^^ c ^^^ c = b := Nat.xor_cancel_right c b
  rw [← ha, ← hb, h]

theorem xor_left_cancel_nat {a b c : Nat} (h : c ^^^ a = c ^^^ b) : a = b := by
  have ha : c ^^^ a ^^^ c = a := by
    rw [Nat.xor_comm c a]
    exact Nat.xor_cancel_right c a
  have hb : c ^^^ b ^^^ c = b := by
    rw [Nat.xor_comm c b]
    exact Nat.xor_cancel_right c b
  rw [← ha, ← hb, h]

/-- The CRC bit step is injective on 32-bit states: the polynomial's top bit
lets the input parity be read off the output. -/
theorem crcStep_inj {a b : Nat} (ha : a < 2 ^ 32) (hb : b < 2 ^ 32)
    (h : crcStep a = crcStep b) : a = b := by
  have hbit : ∀ x : Nat, x < 2 ^ 32 → (x / 2).testBit 31 = false := by
    intro x hx
    exact Nat.testBit_lt_two_pow (by omega)
  have hpoly : (0xEDB88320 : Nat).testBit 31 = true := by decide
  have hxorbit : ∀ x : Nat, x < 2 ^ 32 → ((x / 2) ^^^ 0xEDB88320).testBit 31 = true := by
    intro x hx
    rw [Nat.testBit_xor, hbit x hx, hpoly]
    rfl
  rcases Nat.mod_two_eq_zero_or_one a with ha2 | ha2 <;>
    rcases Nat.mod_two_eq_zero_or_one b with hb2 | hb2
  · rw [crcStep, crcStep, if_neg (by omega), if_neg (by omega)] at h
    omega
  · rw [crcStep, crcStep, if_neg (by omega), if_pos hb2] at h
    have := congrArg (fun x => x.testBit 31) h
    simp only [hbit a ha, hxorbit b hb] at this
    exact absurd this (by decide)
  · rw [crcStep, crcStep, if_pos ha2, if_neg (by omega)] at h
    have := congrArg (fun x => x.testBit 31) h
    simp only [hbit b hb, hxorbit a ha] at this
    exact absurd this (by decide)
  · rw [crcStep, crcStep, if_pos ha2, if_pos hb2] at h
    have := xor_right_cancel_nat h
    omega

theorem crcStep_iter_inj (n : Nat) {a b : Nat} (ha : a < 2 ^ 32) (hb : b < 2 ^ 32)
    (h : crcStep^[n] a = crcStep^[n] b) : a = b := by
  induction n generalizing a b with
  | zero => simpa using h
  | succ n ih =>
    rw [Function.iterate_succ_apply, Function.iterate_succ_apply] at h
    exact crcStep_inj ha hb (ih (crcStep_lt ha) (crcStep_lt hb) h)

theorem crcByte_inj_state {s t b : Nat} (hs : s < 2 ^ 32) (ht : t < 2 ^ 32) (hb : b < 256)
    (hne : s ≠ t) : crcByte s b ≠ crcByte t b := by
  intro h
  have hsb : s ^^^ b < 2 ^ 32 := Nat.xor_lt_two_pow hs (by omega)
  have htb : t ^^^ b < 2 ^ 32 := Nat.xor_lt_two_pow ht (by omega)
  exact hne (xor_right_cancel_nat (crcStep_iter_inj 8 hsb htb h))

theorem crcByte_inj_byte {s x y : Nat} (hs : s < 2 ^ 32) (hx : x < 256) (hy : y < 256)
    (hne : x ≠ y) : crcByte s x ≠ crcByte s y := by
  intro h
  have hsx : s ^^^ x < 2 ^ 32 := Nat.xor_lt_two_pow hs (by omega)
  have hsy : s ^^^ y < 2 ^ 32 := Nat.xor_lt_two_pow hs (by omega)
  exact hne (xor_left_cancel_nat (crcStep_iter_inj 8 hsx hsy h))

theorem crc_foldl_ne {l : List Nat} (hl : ∀ x ∈ l, x < 256) :
    ∀ {s t : Nat}, s < 2 ^ 32 → t < 2 ^ 32 → s ≠ t →
      l.foldl crcByte s ≠ l.foldl crcByte t := by
  induction l with
  | nil =>
    intro s t _ _ hne
    simpa using hne
  | cons b rest ih =>
    intro s t hs ht hne
    simp only [List.foldl_cons]
    have hb : b < 256 := hl b (List.mem_cons_self _ _)
    exact ih (fun x hx => hl x (List.mem_cons_of_mem _ hx))
      (crcByte_lt hs hb) (crcByte_lt ht hb)
      (crcByte_inj_state hs ht hb hne)

/-- Changing a single byte of a byte string changes its CRC-32. -/
theorem crc32_set_ne {pre suf : List Nat} {x y : Nat}
    (hpre : ∀ b ∈ pre, b < 256) (hsuf : ∀ b ∈ suf, b < 256)
    (hx : x < 256) (hy : y < 256) (hxy : x ≠ y) :
    crc32 (pre ++ x :: suf) ≠ crc32 (pre ++ y :: suf) := by
  intro h
  have hs0 : pre.foldl crcByte 0xFFFFFFFF < 2 ^ 32 := crc_foldl_lt hpre (by norm_num)
  have hstep : crcByte (pre.foldl crcByte 0xFFFFFFFF) x
      ≠ crcByte (pre.foldl crcByte 0xFFFFFFFF) y := crcByte_inj_byte hs0 hx hy hxy
  have htail := crc_foldl_ne hsuf (crcByte_lt hs0 hx) (crcByte_lt hs0 hy) hstep
  apply htail
  have h2 := xor_right_cancel_nat h
  simpa [List.foldl_append] using h2

theorem getD_append_right (l r : List Nat) (i : Nat) :
    (l ++ r).getD (l.length + i) 0 = r.getD i 0 := by
  induction l with
  | nil => simp
  | cons a t ih =>
    have hidx : (a :: t).length + i = (t.length + i) + 1 := by
      simp [List.length_cons]
      omega
    rw [hidx, List.cons_append]
    simpa using ih

theorem set_append_right (l r : List Nat) (i x : Nat) :
    (l ++ r).set (l.length + i) x = l ++ r.set i x := by
  induction l with
  | nil => simp
  | cons a t ih =>
    have hidx : (a :: t).length + i = (t.length + i) + 1 := by
      simp [List.length_cons]
      omega
    rw [hidx, List.cons_append, List.cons_append]
    simp only [List.set]
    rw [ih]

/-- Flip bit `b` of the byte at index `i`. -/
def flipBitAt (l : List Nat) (i b : Nat) : List Nat :=
  l.set i (l.getD i 0 ^^^ 2 ^ b)

/-- Claim C8: flipping any single bit inside the payload portion (bytes from
offset 13 on) of `serialize_value(V)` makes `deserialize_value` return
`ChecksumMismatch` with `actual ≠ expected`. -/
theorem c8_crc_sensitivity (v : SValue) (hv : v.Wf) (j b : Nat)
    (hj : j < (valuePayload v).length) (hb : b < 8) :
    ∃ expected actual,
      deserializeValue (flipBitAt (serializeValue v) (13 + j) b)
        = .error (.checksumMismatch expected actual) ∧ actual ≠ expected := by
  have hplb : ∀ x ∈ valuePayload v, x < 256 := valuePayload_bytes hv
  have hplt : (valuePayload v).length < 2 ^ 64 := by
    cases v with
    | str bs =>
      have := hv.2.2
      simp only [valuePayload, List.length_append, toLE_length]
      omega
    | int n => simp [valuePayload, toLE_length]
  set pl := valuePayload v with hpldef
  set hdr := toLE 8 pl.length ++ toLE 4 (crc32 pl) ++ [valueTag v] with hhdrdef
  have hhdrlen : hdr.length = 13 := by simp [hhdrdef, toLE_length]
  have hser : serializeValue v = hdr ++ pl := by
    simp [serializeValue, hhdrdef, ← hpldef, List.append_assoc]
  have hx : pl.getD j 0 = pl[j] := List.getD_eq_getElem pl 0 hj
  have hx256 : pl.getD j 0 < 256 := by
    rw [hx]
    exact hplb _ (List.getElem_mem hj)
  have h2b : (2 : Nat) ^ b < 256 := by
    calc (2 : Nat) ^ b < 2 ^ 8 := Nat.pow_lt_pow_right one_lt_two hb
      _ = 256 := by norm_num
  set z := pl.getD j 0 ^^^ 2 ^ b with hzdef
  have hz256 : z < 256 := by
    have h8 : (256 : Nat) = 2 ^ 8 := by norm_num
    rw [hzdef, h8]
    exact Nat.xor_lt_two_pow (by omega) (by omega)
  have hzx : z ≠ pl.getD j 0 := by
    intro hc
    have h0 : pl.getD j 0 ^^^ 2 ^ b = pl.getD j 0 ^^^ 0 := by
      rw [Nat.xor_zero]
      exact hc
    have := xor_left_cancel_nat h0
    exact absurd this (Nat.pos_iff_ne_zero.1 (Nat.pos_pow_of_pos b (by norm_num)))
  have hflip : flipBitAt (serializeValue v) (13 + j) b = hdr ++ pl.set j z := by
    rw [flipBitAt, hser]
    have hgd : (hdr ++ pl).getD (13 + j) 0 = pl.getD j 0 := by
      rw [show (13 + j) = hdr.length + j by rw [hhdrlen]]
      exact getD_append_right hdr pl j
    rw [hgd, show (13 + j) = hdr.length + j by rw [hhdrlen], ← hzdef]
    exact set_append_right hdr pl j z
  have hdecomp : pl = pl.take j ++ pl.getD j 0 :: pl.drop (j + 1) := by
    conv_lhs => rw [← List.take_append_drop j pl]
    rw [List.drop_eq_getElem_cons hj, hx]
  have hset : pl.set j z = pl.take j ++ z :: pl.drop (j + 1) := by
    rw [List.set_eq_take_append_cons_drop, if_pos hj]
  have hcrcne : crc32 (pl.set j z) ≠ crc32 pl := by
    rw [hset]
    conv_rhs => rw [hdecomp]
    exact crc32_set_ne (fun x hx2 => hplb x (List.mem_of_mem_take hx2))
      (fun x hx2 => hplb x (List.mem_of_mem_drop hx2)) hz256 hx256 hzx
  have hsetlen : (pl.set j z).length = pl.length := List.length_set pl _ _
  have hform : hdr ++ pl.set j z
      = toLE 8 (pl.set j z).length ++ toLE 4 (crc32 pl) ++ [valueTag v] ++ pl.set j z ++ [] := by
    rw [hsetlen]
    simp [hhdrdef, List.append_assoc]
  refine ⟨crc32 pl, crc32 (pl.set j z), ?_, hcrcne⟩
  rw [hflip, hform, deserializeValue_parts _ _ _ _ (by omega) (crc32_lt hplb),
    if_neg hcrcne]

set_option maxRecDepth 40000 in
/-- Claim C8, witness: the value `text "hello"`, flipping bit 0 of the first
payload byte (scenario S4 of the spec flips byte 13 of the record). -/
theorem c8_crc_sensitivity_witness :
    (SValue.str [104, 101, 108, 108, 111]).Wf ∧
      (0 < (valuePayload (SValue.str [104, 101, 108, 108, 111])).length ∧ (0 : Nat) < 8) ∧
      ∃ expected actual,
        deserializeValue (flipBitAt (serializeValue (SValue.str [104, 101, 108, 108, 111]))
            (13 + 0) 0)
          = .error (.checksumMismatch expected actual) ∧ actual ≠ expected :=
  ⟨⟨by decide, by decide, by norm_num⟩, ⟨by decide, by decide⟩,
    c8_crc_sensitivity (SValue.str [104, 101, 108, 108, 111])
      ⟨by decide, by decide, by norm_num⟩ 0 0 (by decide) (by decide)⟩

/-! ## Claim C9: snapshot load on a truncated keys file
(`Store::load`, `src/backend/src/store.rs` lines 204-281)

The file-system reads are I/O; the verifiable content of `load` is the pure
function of the three file contents, embedded here as `loadFromBuffers`. -/

/-- The parse loop of `Store::load` over the keys file (lines 242-270).
Note the `break` (not an error) when fewer than 4 bytes remain.  The Rust
`while` terminates because `pos` advances by at least 12 per iteration; the
loop is embedded with a fuel counter kept strictly above the remaining byte
count, so the zero-fuel arm is never reached. -/
def parseKeysGo : Nat → List Nat → Nat → List (SKey × Nat) →
    Except StoreErr (List (SKey × Nat))
  | 0, _, _, index => .ok index
  | fuel + 1, keysBuf, pos, index =>
    if pos < keysBuf.length then
      if keysBuf.length < pos + 4 then .ok index
      else
        let keyLen := fromLE ((keysBuf.drop pos).take 4)
        if keysBuf.length < pos + 4 + keyLen + 8 then
          .error (.invalidData (.bufferTooShort (pos + 4 + keyLen + 8) keysBuf.length))
        else
          match deserializeKey ((keysBuf.drop (pos + 4)).take keyLen) with
          | .error cause => .error (.invalidData cause)
          | .ok (key, _) =>
            parseKeysGo fuel keysBuf (pos + 4 + keyLen + 8)
              (ainsert index key (fromLE ((keysBuf.drop (pos + 4 + keyLen)).take 8)))
    else .ok index

/-- The parse loop started at position 0 with ample fuel. -/
def parseKeys (keysBuf : List Nat) : Except StoreErr (List (SKey × Nat)) :=
  parseKeysGo (keysBuf.length + 1) keysBuf 0 []

/-- `Store::load` after the three `fs::read`s, as a function of the file
contents. -/
def loadFromBuffers (metaBuf keysBuf dataBuf : List Nat) : Except StoreErr Store :=
  if metaBuf.length < 20 then
    .error (.invalidData (.bufferTooShort 20 metaBuf.length))
  else
    let version := fromLE (metaBuf.take 4)
    if version ≠ 1 then .error (.unsupportedVersion version)
    else
      let storedKeysChecksum := fromLE ((metaBuf.drop 4).take 4)
      let storedDataChecksum := fromLE ((metaBuf.drop 8).take 4)
      let entryCount := fromLE ((metaBuf.drop 12).take 8)
      if crc32 keysBuf ≠ storedKeysChecksum then .error .fileCorrupted
      else if crc32 dataBuf ≠ storedDataChecksum then .error .fileCorrupted
      else
        match parseKeys keysBuf with
        | .error e => .error e
        | .ok index =>
          if index.length ≠ entryCount then .error .fileCorrupted
          else .ok { index := index, data := dataBuf }

/-- Length of a serialized key. -/
theorem serializeKey_length (k : SKey) (hk : k.Wf) :
    (serializeKey k).length < 2 ^ 32 := by
  cases k with
  | str bs =>
    simp only [serializeKey, List.length_cons, List.length_append, toLE_length]
    have := hk.2.2
    omega
  | int n =>
    simp [serializeKey, toLE_length]

/-- Deserializing a freshly serialized well-formed key recovers it. -/
theorem deserializeKey_serializeKey (k : SKey) (hk : k.Wf) :
    ∃ n, deserializeKey (serializeKey k) = .ok (k, n) := by
  cases k with
  | str bs =>
    refine ⟨9 + bs.length, ?_⟩
    have hlen : bs.length < 2 ^ 64 := by
      have h1 := hk.2.2
      have h2 : (2 : Nat) ^ 32 < 2 ^ 64 := by norm_num
      omega
    have htke : (toLE 8 bs.length ++ bs).take 8 = toLE 8 bs.length := take_app (toLE_length 8 _)
    have hdrp : (toLE 8 bs.length ++ bs).drop 8 = bs := drop_app (toLE_length 8 _)
    have hflen : fromLE ((toLE 8 bs.length ++ bs).take 8) = bs.length := by
      rw [htke, fromLE_toLE, pow256]
      exact Nat.mod_eq_of_lt (by simpa using hlen)
    simp only [serializeKey, deserializeKey, if_true, hflen, hdrp]
    rw [if_neg (by simp [toLE_length])]
    rw [if_neg (by simp only [List.length_cons, List.length_append, toLE_length]; omega)]
    rw [List.take_of_length_le (le_refl _), if_pos hk.1]
  | int n =>
    refine ⟨9, ?_⟩
    have hfv : fromLE ((toLE 8 n).take 8) = n := by
      rw [List.take_of_length_le (by simp [toLE_length]), fromLE_toLE, pow256]
      exact Nat.mod_eq_of_lt (by simpa using hk)
    simp only [serializeKey, deserializeKey, hfv]
    norm_num
    intro hc
    simp [toLE_length] at hc

/-- One `(u32 key_len, key_bytes, u64 offset)` record of the keys snapshot
file, as written by `Store::save` (lines 180-186). -/
def entryBytes (k : SKey) (off : Nat) : List Nat :=
  toLE 4 (serializeKey k).length ++ serializeKey k ++ toLE 8 off

theorem entryBytes_length (k : SKey) (off : Nat) :
    (entryBytes k off).length = 4 + (serializeKey k).length + 8 := by
  simp [entryBytes, toLE_length]
  omega

/-- The parse loop steps over one complete well-formed entry. -/
theorem parseKeysGo_skip (fuel : Nat) (buf : List Nat) (pos : Nat) (k : SKey) (off : Nat)
    (tail : List Nat) (idx : List (SKey × Nat)) (hk : k.Wf)
    (hbuf : buf.drop pos = entryBytes k off ++ tail) (hpos : pos ≤ buf.length) :
    parseKeysGo (fuel + 1) buf pos idx
      = parseKeysGo fuel buf (pos + 4 + (serializeKey k).length + 8)
          (ainsert idx k (fromLE (toLE 8 off))) ∧
      buf.drop (pos + 4 + (serializeKey k).length + 8) = tail ∧
      pos + 4 + (serializeKey k).length + 8 ≤ buf.length := by
  have hdl : (buf.drop pos).length = buf.length - pos := List.length_drop pos buf
  have hel : (entryBytes k off ++ tail).length
      = 4 + (serializeKey k).length + 8 + tail.length := by
    simp [entryBytes_length]
  have htot : buf.length - pos = 4 + (serializeKey k).length + 8 + tail.length := by
    rw [← hdl, hbuf, hel]
  have hposlt : pos < buf.length := by omega
  have hsk := serializeKey_length k hk
  have hassoc : entryBytes k off ++ tail
      = toLE 4 (serializeKey k).length
        ++ (serializeKey k ++ (toLE 8 off ++ tail)) := by
    simp [entryBytes, List.append_assoc]
  have htake4 : (buf.drop pos).take 4 = toLE 4 (serializeKey k).length := by
    rw [hbuf, hassoc]
    exact take_app (toLE_length 4 _)
  have hkeylen : fromLE ((buf.drop pos).take 4) = (serializeKey k).length := by
    rw [htake4, fromLE_toLE, pow256]
    exact Nat.mod_eq_of_lt (by simpa using hsk)
  have hdrop4 : buf.drop (pos + 4) = serializeKey k ++ (toLE 8 off ++ tail) := by
    have h1 : buf.drop (pos + 4) = (buf.drop pos).drop 4 := by
      rw [List.drop_drop]
    rw [h1, hbuf, hassoc]
    exact drop_app (toLE_length 4 _)
  have hkeyslice : (buf.drop (pos + 4)).take (serializeKey k).length = serializeKey k := by
    rw [hdrop4]
    exact take_app rfl
  have hdropoff : buf.drop (pos + 4 + (serializeKey k).length) = toLE 8 off ++ tail := by
    have h1 : buf.drop (pos + 4 + (serializeKey k).length)
        = (buf.drop (pos + 4)).drop (serializeKey k).length := by
      rw [List.drop_drop]
    rw [h1, hdrop4]
    exact drop_app rfl
  have hoffslice : (buf.drop (pos + 4 + (serializeKey k).length)).take 8 = toLE 8 off := by
    rw [hdropoff]
    exact take_app (toLE_length 8 _)
  have hdroptail : buf.drop (pos + 4 + (serializeKey k).length + 8) = tail := by
    have h1 : buf.drop (pos + 4 + (serializeKey k).length + 8)
        = (buf.drop (pos + 4 + (serializeKey k).length)).drop 8 := by
      rw [List.drop_drop]
    rw [h1, hdropoff]
    exact drop_app (toLE_length 8 _)
  obtain ⟨nk, hrt⟩ := deserializeKey_serializeKey k hk
  refine ⟨?_, hdroptail, by omega⟩
  rw [parseKeysGo]
  rw [if_pos hposlt, if_neg (by omega)]
  simp only [hkeylen, hkeyslice, hrt, hoffslice]
  rw [if_neg (by omega)]

/-- If, past any number of complete entries, the keys buffer ends in a
truncated record whose 4-byte `key_len` is still readable, the parse loop
fails with `InvalidData`. -/
theorem parseKeysGo_truncated (buf : List Nat) (entries : List (SKey × Nat)) :
    ∀ (fuel pos : Nat) (idx : List (SKey × Nat)) (tail : List Nat),
      (∀ p ∈ entries, p.1.Wf) →
      buf.drop pos = (entries.map (fun p => entryBytes p.1 p.2)).flatten ++ tail →
      pos ≤ buf.length →
      buf.length - pos < fuel →
      4 ≤ tail.length →
      tail.length < 4 + fromLE (tail.take 4) + 8 →
      ∃ c, parseKeysGo fuel buf pos idx = .error (.invalidData c) := by
  induction entries with
  | nil =>
    intro fuel pos idx tail _ hbuf hpos hfuel htail4 htrunc
    simp only [List.map_nil, List.flatten_nil, List.nil_append] at hbuf
    have hdl : (buf.drop pos).length = buf.length - pos := List.length_drop pos buf
    have htot : buf.length - pos = tail.length := by rw [← hdl, hbuf]
    have htake4 : (buf.drop pos).take 4 = tail.take 4 := by rw [hbuf]
    refine ⟨.bufferTooShort (pos + 4 + fromLE (tail.take 4) + 8) buf.length, ?_⟩
    cases fuel with
    | zero => omega
    | succ f =>
      rw [parseKeysGo]
      rw [if_pos (by omega), if_neg (by omega)]
      simp only [htake4]
      rw [if_pos (by omega)]
  | cons hd rest ih =>
    intro fuel pos idx tail hwf hbuf hpos hfuel htail4 htrunc
    simp only [List.map_cons, List.flatten_cons, List.append_assoc] at hbuf
    have hdl : (buf.drop pos).length = buf.length - pos := List.length_drop pos buf
    cases fuel with
    | zero =>
      have : 4 ≤ (buf.drop pos).length := by
        rw [hbuf]
        simp only [List.length_append]
        omega
      omega
    | succ f =>
      obtain ⟨hstep, hdrop, hle⟩ := parseKeysGo_skip f buf pos hd.1 hd.2
        ((rest.map (fun p => entryBytes p.1 p.2)).flatten ++ tail) idx
        (hwf hd (List.mem_cons_self _ _)) hbuf hpos
      rw [hstep]
      exact ih f _ _ tail (fun p hp => hwf p (List.mem_cons_of_mem _ hp)) hdrop hle
        (by omega) htail4 htrunc

/-- Claim C9 (amended): with a version-1 meta file whose CRC32s match the
keys and data files, if the keys file consists of complete entries followed
by a truncated record whose 4-byte `key_len` field is still readable (at
least 4 trailing bytes), `load` fails with `InvalidData`.  (A trailing
fragment of 1-3 bytes is silently skipped by the parse loop's `break`
instead; see the counterexample.) -/
theorem c9_load_truncated (keysBuf dataBuf : List Nat) (entries : List (SKey × Nat))
    (tail : List Nat) (cnt : Nat)
    (hkb : ∀ b ∈ keysBuf, b < 256) (hdb : ∀ b ∈ dataBuf, b < 256)
    (hwf : ∀ p ∈ entries, p.1.Wf)
    (hsplit : keysBuf = (entries.map (fun p => entryBytes p.1 p.2)).flatten ++ tail)
    (htail4 : 4 ≤ tail.length)
    (htrunc : tail.length < 4 + fromLE (tail.take 4) + 8) :
    ∃ c, loadFromBuffers
        (toLE 4 1 ++ toLE 4 (crc32 keysBuf) ++ toLE 4 (crc32 dataBuf) ++ toLE 8 cnt)
        keysBuf dataBuf = .error (.invalidData c) := by
  obtain ⟨c, hpk⟩ := parseKeysGo_truncated keysBuf entries (keysBuf.length + 1) 0 [] tail hwf
    (by simpa using hsplit) (Nat.zero_le _) (by omega) htail4 htrunc
  rw [show parseKeysGo (keysBuf.length + 1) keysBuf 0 [] = parseKeys keysBuf from rfl] at hpk
  refine ⟨c, ?_⟩
  set mb := toLE 4 1 ++ toLE 4 (crc32 keysBuf) ++ toLE 4 (crc32 dataBuf) ++ toLE 8 cnt
    with hmb
  have hlen : mb.length = 20 := by simp [hmb, toLE_length]
  have htk4 : mb.take 4 = toLE 4 1 := by
    have h1 : mb = toLE 4 1
        ++ (toLE 4 (crc32 keysBuf) ++ (toLE 4 (crc32 dataBuf) ++ toLE 8 cnt)) := by
      simp [hmb, List.append_assoc]
    rw [h1]; exact take_app (toLE_length 4 _)
  have hd4 : (mb.drop 4).take 4 = toLE 4 (crc32 keysBuf) := by
    have h1 : mb = toLE 4 1
        ++ (toLE 4 (crc32 keysBuf) ++ (toLE 4 (crc32 dataBuf) ++ toLE 8 cnt)) := by
      simp [hmb, List.append_assoc]
    rw [h1, drop_app (toLE_length 4 _)]
    exact take_app (toLE_length 4 _)
  have hd8 : (mb.drop 8).take 4 = toLE 4 (crc32 dataBuf) := by
    have h1 : mb = (toLE 4 1 ++ toLE 4 (crc32 keysBuf))
        ++ (toLE 4 (crc32 dataBuf) ++ toLE 8 cnt) := by
      simp [hmb, List.append_assoc]
    rw [h1, drop_app (by simp [toLE_length])]
    exact take_app (toLE_length 4 _)
  have hver : fromLE (mb.take 4) = 1 := by
    rw [htk4, fromLE_toLE]
    norm_num
  have hkck : fromLE ((mb.drop 4).take 4) = crc32 keysBuf := by
    rw [hd4, fromLE_toLE, pow256]
    exact Nat.mod_eq_of_lt (by simpa using crc32_lt hkb)
  have hdck : fromLE ((mb.drop 8).take 4) = crc32 dataBuf := by
    rw [hd8, fromLE_toLE, pow256]
    exact Nat.mod_eq_of_lt (by simpa using crc32_lt hdb)
  rw [loadFromBuffers]
  rw [if_neg (by omega)]
  simp only [hver, hkck, hdck, hpk]
  rw [if_neg (by norm_num), if_neg (by simp), if_neg (by simp)]

set_option maxRecDepth 40000 in
/-- Claim C9, counterexample: a keys file that is a truncated entry of only
2 bytes (fewer than the 4 needed for `key_len`), with version-1 meta and
matching CRC32s over exactly these files.  `load` does not fail with
`InvalidData`: it succeeds (the loop `break`s and the entry count, 0,
matches). -/
theorem c9_load_truncated_cex :
    loadFromBuffers (toLE 4 1 ++ toLE 4 (crc32 [0, 0]) ++ toLE 4 (crc32 []) ++ toLE 8 0)
        [0, 0] []
      = .ok { index := [], data := [] } := by
  decide

set_option maxRecDepth 40000 in
/-- Claim C9, witness: one complete entry (key `Int 3` at offset 7) followed
by a truncated record with key_len 5 and nothing after it. -/
theorem c9_load_truncated_witness :
    (4 ≤ ([5, 0, 0, 0] : List Nat).length ∧
      ([5, 0, 0, 0] : List Nat).length < 4 + fromLE (([5, 0, 0, 0] : List Nat).take 4) + 8) ∧
    ∃ c, loadFromBuffers
        (toLE 4 1 ++ toLE 4 (crc32 (entryBytes (.int 3) 7 ++ [5, 0, 0, 0]))
          ++ toLE 4 (crc32 []) ++ toLE 8 1)
        (entryBytes (.int 3) 7 ++ [5, 0, 0, 0]) []
      = .error (.invalidData c) :=
  ⟨⟨by decide, by decide⟩,
   c9_load_truncated (entryBytes (.int 3) 7 ++ [5, 0, 0, 0]) [] [((.int 3 : SKey), 7)]
     [5, 0, 0, 0] 1
     (by decide) (by decide) (by intro p hp; simp only [List.mem_singleton] at hp; subst hp
                                 show (3 : Nat) < 2 ^ 64; norm_num)
     (by simp) (by decide) (by decide)⟩

/-! ## Claim C3: the 113-byte telemetry wire codec
(`src/Backend/telemetry_sim/src/telemetry.rs`)

Float fields are represented by their IEEE-754 bit patterns (`f64`: 64 bits,
`f32`: 32 bits), `rssi : i16` by its two's-complement pattern, since
`to_le_bytes`/`from_le_bytes` move the raw bits.  Byte-identical patterns are
field-wise equal floats (and `==`-equal when not NaN). -/

/-- `TelemetryPacket` of `src/Backend/telemetry_sim/src/telemetry.rs`. -/
structure TPacket where
  latitude : Nat
  longitude : Nat
  altitude_gps : Nat
  ground_speed : Nat
  heading : Nat
  num_satellites : Nat
  gps_fix_type : Nat
  altitude_baro : Nat
  vertical_speed : Nat
  temperature : Nat
  roll : Nat
  pitch : Nat
  yaw : Nat
  gyro_x : Nat
  gyro_y : Nat
  gyro_z : Nat
  accel_x : Nat
  accel_y : Nat
  accel_z : Nat
  battery_voltage : Nat
  battery_current : Nat
  battery_power : Nat
  battery_mah_used : Nat
  rssi : Nat
  snr : Nat
  timestamp : Nat
  packet_sequence : Nat
  system_status : Nat
deriving DecidableEq

/-- Field bounds of a packet held in the Rust struct's machine types. -/
def TPacket.Wf (p : TPacket) : Prop :=
  p.latitude < 2 ^ 64 ∧
  p.longitude < 2 ^ 64 ∧
  p.altitude_gps < 2 ^ 32 ∧
  p.ground_speed < 2 ^ 32 ∧
  p.heading < 2 ^ 32 ∧
  p.num_satellites < 2 ^ 8 ∧
  p.gps_fix_type < 2 ^ 8 ∧
  p.altitude_baro < 2 ^ 32 ∧
  p.vertical_speed < 2 ^ 32 ∧
  p.temperature < 2 ^ 32 ∧
  p.roll < 2 ^ 32 ∧
  p.pitch < 2 ^ 32 ∧
  p.yaw < 2 ^ 32 ∧
  p.gyro_x < 2 ^ 32 ∧
  p.gyro_y < 2 ^ 32 ∧
  p.gyro_z < 2 ^ 32 ∧
  p.accel_x < 2 ^ 32 ∧
  p.accel_y < 2 ^ 32 ∧
  p.accel_z < 2 ^ 32 ∧
  p.battery_voltage < 2 ^ 32 ∧
  p.battery_current < 2 ^ 32 ∧
  p.battery_power < 2 ^ 32 ∧
  p.battery_mah_used < 2 ^ 32 ∧
  p.rssi < 2 ^ 16 ∧
  p.snr < 2 ^ 32 ∧
  p.timestamp < 2 ^ 64 ∧
  p.packet_sequence < 2 ^ 32 ∧
  p.system_status < 2 ^ 8

/-- `TelemetryPacket::to_bytes` (lines 54-98): little-endian field
concatenation in declaration order. -/
def TPacket.toBytes (p : TPacket) : List Nat :=
  toLE 8 p.latitude ++ (toLE 8 p.longitude ++ (toLE 4 p.altitude_gps ++ (toLE 4 p.ground_speed ++ (toLE 4 p.heading ++ (toLE 1 p.num_satellites ++ (toLE 1 p.gps_fix_type ++ (toLE 4 p.altitude_baro ++ (toLE 4 p.vertical_speed ++ (toLE 4 p.temperature ++ (toLE 4 p.roll ++ (toLE 4 p.pitch ++ (toLE 4 p.yaw ++ (toLE 4 p.gyro_x ++ (toLE 4 p.gyro_y ++ (toLE 4 p.gyro_z ++ (toLE 4 p.accel_x ++ (toLE 4 p.accel_y ++ (toLE 4 p.accel_z ++ (toLE 4 p.battery_voltage ++ (toLE 4 p.battery_current ++ (toLE 4 p.battery_power ++ (toLE 4 p.battery_mah_used ++ (toLE 2 p.rssi ++ (toLE 4 p.snr ++ (toLE 8 p.timestamp ++ (toLE 4 p.packet_sequence ++ (toLE 1 p.system_status)))))))))))))))))))))))))))

/-- Read one little-endian field and return it with the remaining bytes
(the `read_*!` macros of `from_bytes` advance `offset` the same way). -/
def readLE (w : Nat) (bs : List Nat) : Nat × List Nat :=
  (fromLE (bs.take w), bs.drop w)

/-- `TelemetryPacket::from_bytes` (lines 102-199). -/
def TPacket.fromBytes (bytes : List Nat) : Except String TPacket :=
  if bytes.length < 113 then .error "Insufficient bytes for telemetry packet"
  else
    let r0 := readLE 8 bytes
    let r1 := readLE 8 r0.2
    let r2 := readLE 4 r1.2
    let r3 := readLE 4 r2.2
    let r4 := readLE 4 r3.2
    let r5 := readLE 1 r4.2
    let r6 := readLE 1 r5.2
    let r7 := readLE 4 r6.2
    let r8 := readLE 4 r7.2
    let r9 := readLE 4 r8.2
    let r10 := readLE 4 r9.2
    let r11 := readLE 4 r10.2
    let r12 := readLE 4 r11.2
    let r13 := readLE 4 r12.2
    let r14 := readLE 4 r13.2
    let r15 := readLE 4 r14.2
    let r16 := readLE 4 r15.2
    let r17 := readLE 4 r16.2
    let r18 := readLE 4 r17.2
    let r19 := readLE 4 r18.2
    let r20 := readLE 4 r19.2
    let r21 := readLE 4 r20.2
    let r22 := readLE 4 r21.2
    let r23 := readLE 2 r22.2
    let r24 := readLE 4 r23.2
    let r25 := readLE 8 r24.2
    let r26 := readLE 4 r25.2
    let r27 := readLE 1 r26.2
    .ok {
      latitude := r0.1,
      longitude := r1.1,
      altitude_gps := r2.1,
      ground_speed := r3.1,
      heading := r4.1,
      num_satellites := r5.1,
      gps_fix_type := r6.1,
      altitude_baro := r7.1,
      vertical_speed := r8.1,
      temperature := r9.1,
      roll := r10.1,
      pitch := r11.1,
      yaw := r12.1,
      gyro_x := r13.1,
      gyro_y := r14.1,
      gyro_z := r15.1,
      accel_x := r16.1,
      accel_y := r17.1,
      accel_z := r18.1,
      battery_voltage := r19.1,
      battery_current := r20.1,
      battery_power := r21.1,
      battery_mah_used := r22.1,
      rssi := r23.1,
      snr := r24.1,
      timestamp := r25.1,
      packet_sequence := r26.1,
      system_status := r27.1 }

theorem readLE_toLE (w n : Nat) (rest : List Nat) :
    readLE w (toLE w n ++ rest) = (n % 256 ^ w, rest) := by
  simp [readLE, take_app (toLE_length w n), drop_app (toLE_length w n), fromLE_toLE]

theorem readLE_toLE_nil (w n : Nat) :
    readLE w (toLE w n) = (n % 256 ^ w, []) := by
  simp [readLE, List.take_of_length_le (le_of_eq (toLE_length w n)),
    List.drop_of_length_le (le_of_eq (toLE_length w n)), fromLE_toLE]

/-- Claim C3: `to_bytes` produces exactly 113 bytes, and `from_bytes` of
those bytes recovers the packet field by field. -/
theorem c3_codec_roundtrip (p : TPacket) (hp : p.Wf) :
    p.toBytes.length = 113 ∧ TPacket.fromBytes p.toBytes = .ok p := by
  obtain ⟨h0, h1, h2, h3, h4, h5, h6, h7, h8, h9, h10, h11, h12, h13, h14, h15, h16, h17, h18, h19, h20, h21, h22, h23, h24, h25, h26, h27⟩ := hp
  have hlen : p.toBytes.length = 113 := by
    simp [TPacket.toBytes, toLE_length]
  refine ⟨hlen, ?_⟩
  obtain ⟨latitude, longitude, altitude_gps, ground_speed, heading, num_satellites, gps_fix_type, altitude_baro, vertical_speed, temperature, roll, pitch, yaw, gyro_x, gyro_y, gyro_z, accel_x, accel_y, accel_z, battery_voltage, battery_current, battery_power, battery_mah_used, rssi, snr, timestamp, packet_sequence, system_status⟩ := p
  rw [TPacket.fromBytes, if_neg (by omega)]
  simp only [TPacket.toBytes, readLE_toLE, readLE_toLE_nil]
  simp only [show latitude % 256 ^ 8 = latitude by rw [pow256]; exact Nat.mod_eq_of_lt (by simpa using h0),
    show longitude % 256 ^ 8 = longitude by rw [pow256]; exact Nat.mod_eq_of_lt (by simpa using h1),
    show altitude_gps % 256 ^ 4 = altitude_gps by rw [pow256]; exact Nat.mod_eq_of_lt (by simpa using h2),
    show ground_speed % 256 ^ 4 = ground_speed by rw [pow256]; exact Nat.mod_eq_of_lt (by simpa using h3),
    show heading % 256 ^ 4 = heading by rw [pow256]; exact Nat.mod_eq_of_lt (by simpa using h4),
    show num_satellites % 256 ^ 1 = num_satellites by rw [pow256]; exact Nat.mod_eq_of_lt (by simpa using h5),
    show gps_fix_type % 256 ^ 1 = gps_fix_type by rw [pow256]; exact Nat.mod_eq_of_lt (by simpa using h6),
    show altitude_baro % 256 ^ 4 = altitude_baro by rw [pow256]; exact Nat.mod_eq_of_lt (by simpa using h7),
    show vertical_speed % 256 ^ 4 = vertical_speed by rw [pow256]; exact Nat.mod_eq_of_lt (by simpa using h8),
    show temperature % 256 ^ 4 = temperature by rw [pow256]; exact Nat.mod_eq_of_lt (by simpa using h9),
    show roll % 256 ^ 4 = roll by rw [pow256]; exact Nat.mod_eq_of_lt (by simpa using h10),
    show pitch % 256 ^ 4 = pitch by rw [pow256]; exact Nat.mod_eq_of_lt (by simpa using h11),
    show yaw % 256 ^ 4 = yaw by rw [pow256]; exact Nat.mod_eq_of_lt (by simpa using h12),
    show gyro_x % 256 ^ 4 = gyro_x by rw [pow256]; exact Nat.mod_eq_of_lt (by simpa using h13),
    show gyro_y % 256 ^ 4 = gyro_y by rw [pow256]; exact Nat.mod_eq_of_lt (by simpa using h14),
    show gyro_z % 256 ^ 4 = gyro_z by rw [pow256]; exact Nat.mod_eq_of_lt (by simpa using h15),
    show accel_x % 256 ^ 4 = accel_x by rw [pow256]; exact Nat.mod_eq_of_lt (by simpa using h16),
    show accel_y % 256 ^ 4 = accel_y by rw [pow256]; exact Nat.mod_eq_of_lt (by simpa using h17),
    show accel_z % 256 ^ 4 = accel_z by rw [pow256]; exact Nat.mod_eq_of_lt (by simpa using h18),
    show battery_voltage % 256 ^ 4 = battery_voltage by rw [pow256]; exact Nat.mod_eq_of_lt (by simpa using h19),
    show battery_current % 256 ^ 4 = battery_current by rw [pow256]; exact Nat.mod_eq_of_lt (by simpa using h20),
    show battery_power % 256 ^ 4 = battery_power by rw [pow256]; exact Nat.mod_eq_of_lt (by simpa using h21),
    show battery_mah_used % 256 ^ 4 = battery_mah_used by rw [pow256]; exact Nat.mod_eq_of_lt (by simpa using h22),
    show rssi % 256 ^ 2 = rssi by rw [pow256]; exact Nat.mod_eq_of_lt (by simpa using h23),
    show snr % 256 ^ 4 = snr by rw [pow256]; exact Nat.mod_eq_of_lt (by simpa using h24),
    show timestamp % 256 ^ 8 = timestamp by rw [pow256]; exact Nat.mod_eq_of_lt (by simpa using h25),
    show packet_sequence % 256 ^ 4 = packet_sequence by rw [pow256]; exact Nat.mod_eq_of_lt (by simpa using h26),
    show system_status % 256 ^ 1 = system_status by rw [pow256]; exact Nat.mod_eq_of_lt (by simpa using h27)]

/-- A concrete telemetry packet for the codec witness. -/
def c3WitPacket : TPacket :=
  { latitude := 1000, longitude := 1001, altitude_gps := 1002, ground_speed := 1003, heading := 1004, num_satellites := 105, gps_fix_type := 106, altitude_baro := 1007, vertical_speed := 1008, temperature := 1009, roll := 1010, pitch := 1011, yaw := 1012, gyro_x := 1013, gyro_y := 1014, gyro_z := 1015, accel_x := 1016, accel_y := 1017, accel_z := 1018, battery_voltage := 1019, battery_current := 1020, battery_power := 1021, battery_mah_used := 1022, rssi := 1023, snr := 1024, timestamp := 1025, packet_sequence := 1026, system_status := 127 }

set_option maxRecDepth 100000 in
/-- Claim C3, witness: the round trip evaluated on a concrete packet. -/
theorem c3_codec_roundtrip_witness :
    c3WitPacket.Wf ∧
      (c3WitPacket.toBytes.length = 113 ∧
        TPacket.fromBytes c3WitPacket.toBytes = .ok c3WitPacket) :=
  ⟨by unfold TPacket.Wf; decide, c3_codec_roundtrip c3WitPacket (by unfold TPacket.Wf; decide)⟩

/-! ## Claim C4: flight-phase classification
(`TelemetryPacket::get_flight_phase`, `src/Backend/telemetry_kv_server/src/types.rs`
lines 163-216)

The `f32`/`f64` fields of the server-side packet are modelled as rationals
(the classifier and the segmenter only compare them against constants and
each other); the threshold `0.8f32` is modelled as the rational `8 / 10`. -/

/-- `TelemetryPacket` of `src/Backend/telemetry_kv_server/src/types.rs`. -/
structure KPacket where
  latitude : ℚ
  longitude : ℚ
  altitude_gps : ℚ
  ground_speed : ℚ
  heading : ℚ
  num_satellites : Nat
  gps_fix_type : Nat
  altitude_baro : ℚ
  vertical_speed : ℚ
  temperature : ℚ
  roll : ℚ
  pitch : ℚ
  yaw : ℚ
  gyro_x : ℚ
  gyro_y : ℚ
  gyro_z : ℚ
  accel_x : ℚ
  accel_y : ℚ
  accel_z : ℚ
  battery_voltage : ℚ
  battery_current : ℚ
  battery_power : ℚ
  battery_mah_used : ℚ
  rssi : Int
  snr : ℚ
  timestamp : Nat
  packet_sequence : Nat
  system_status : Nat
deriving DecidableEq

/-- `TelemetryPacket::get_flight_phase` (types.rs lines 163-216). -/
def KPacket.getFlightPhase (p : KPacket) : String :=
  let is_on_ground := p.altitude_baro < 2
  let is_moving := 3 ≤ p.ground_speed
  let is_climbing := 8 / 10 < p.vertical_speed
  let is_descending := p.vertical_speed < -(8 / 10)
  if is_on_ground ∧ ¬ is_moving then "On Ground"
  else if is_on_ground ∧ is_moving then "Taking Off"
  else if p.altitude_baro < 20 ∧ is_descending then "Landing"
  else if ¬ is_on_ground ∧ is_climbing ∧ p.altitude_baro < 140 then "Ascent"
  else if 140 ≤ p.altitude_baro ∧ ¬ is_climbing ∧ ¬ is_descending then "Cruise"
  else if is_descending ∧ 20 < p.altitude_baro then "Descent"
  else if is_climbing then "Ascent"
  else if ¬ is_on_ground then "Cruise"
  else "On Ground"

/-- First matching rule of a decision table, with a default. -/
def firstMatch : List (Bool × String) → String → String
  | [], dflt => dflt
  | (c, s) :: rest, dflt => if c then s else firstMatch rest dflt

/-- The ten-rule decision table of spec section 4.1, transcribed from the
spec's words (rules 2-9 in order, rule 10 as the default), with the rule-1
predicates `on_ground`, `moving`, `climbing`, `descending`. -/
def specPhaseTable (p : KPacket) : String :=
  let on_ground := decide (p.altitude_baro < 2)
  let moving := decide (3 ≤ p.ground_speed)
  let climbing := decide (8 / 10 < p.vertical_speed)
  let descending := decide (p.vertical_speed < -(8 / 10))
  firstMatch
    [(on_ground && !moving, "On Ground"),
     (on_ground && moving, "Taking Off"),
     (decide (p.altitude_baro < 20) && descending, "Landing"),
     (!on_ground && climbing && decide (p.altitude_baro < 140), "Ascent"),
     (decide (140 ≤ p.altitude_baro) && !climbing && !descending, "Cruise"),
     (descending && decide (20 < p.altitude_baro), "Descent"),
     (climbing, "Ascent"),
     (!on_ground, "Cruise")]
    "On Ground"

/-- Claim C4: `get_flight_phase` returns one of the six phase strings, and
equals the first matching rule of the spec's decision table. -/
theorem c4_classify_phase (p : KPacket) :
    p.getFlightPhase = specPhaseTable p ∧
      p.getFlightPhase ∈ ["On Ground", "Taking Off", "Ascent", "Cruise", "Descent", "Landing"] := by
  constructor
  · simp only [KPacket.getFlightPhase, specPhaseTable, firstMatch, Bool.and_eq_true,
      Bool.not_eq_eq_eq_not, Bool.not_true, decide_eq_true_eq, decide_eq_false_iff_not,
      Bool.and_assoc]
  · simp only [KPacket.getFlightPhase]
    split_ifs <;> simp

/-! ## The flight segmenter (`TelemetryStorage`,
`src/Backend/telemetry_kv_server/src/storage.rs`)

The `kiwi_store::Store` held by `TelemetryStorage` is modelled at the level
of its key-to-record mapping — an association list from key strings to the
decoded stored values — which the store theorems above justify (`put`
overwrites the binding, `get` returns what was put, `compact` preserves the
mapping).  The `serde_json` round trip of packets and metadata is modelled
as an exact codec, so a stored value is a `.meta` or a `.pkt` directly.
Rust `String`s are `List Char`; `format!` is list concatenation with the
decimal formatter `natStr`. -/

/-- Decimal digits of `n`, most significant first; the fuel (any bound with
`n ≤ fuel`) makes the recursion structural. -/
def natStrGo : Nat → Nat → List Char
  | 0, _ => []
  | fuel + 1, n =>
    if n = 0 then [] else natStrGo fuel (n / 10) ++ [Nat.digitChar (n % 10)]

/-- Decimal rendering of a natural number (`format!("{}")`). -/
def natStr (n : Nat) : List Char := if n = 0 then ['0'] else natStrGo n n

/-- Zero-padded three-wide decimal rendering (`format!("{:03}")`). -/
def fmt3 (n : Nat) : List Char :=
  List.replicate (3 - (natStr n).length) '0' ++ natStr n

/-- ASCII decimal digit test. -/
def isDigitCh (c : Char) : Bool := 48 ≤ c.toNat && c.toNat ≤ 57

/-- `str::parse::<usize>` on the strings this system produces (nonempty
strings of ASCII digits). -/
def parseUsize (s : List Char) : Option Nat :=
  if s.isEmpty then none
  else if s.all isDigitCh then
    some (s.foldl (fun acc c => acc * 10 + (c.toNat - 48)) 0)
  else none

/-- `str::strip_prefix` (`starts_with` followed by `strip_prefix` in
`get_next_flight_number` collapses to this single test). -/
def stripPre (pre s : List Char) : Option (List Char) :=
  if pre.isPrefixOf s then some (s.drop pre.length) else none

/-- `format!("flight_{:03}", n)`. -/
def flightId (n : Nat) : List Char := "flight_".toList ++ fmt3 n

/-- `format!("flight:{}", fid)`. -/
def flightKey (fid : List Char) : List Char := "flight:".toList ++ fid

/-- `format!("telem:{}:{}", fid, ts)`. -/
def telemKey (fid : List Char) (ts : Nat) : List Char :=
  "telem:".toList ++ fid ++ ':' :: natStr ts

/-- `format!("telem:{}:", fid)`, the per-flight telemetry key space. -/
def telemPfx (fid : List Char) : List Char := "telem:".toList ++ fid ++ [':']

/-- `FlightMetadata` of `src/Backend/telemetry_kv_server/src/types.rs`. -/
structure FlightMetadata where
  flight_id : List Char
  start_time : Nat
  end_time : Nat
  duration_secs : Nat
  packet_count : Nat
  distance_km : ℚ
  first_lat : ℚ
  first_lon : ℚ
  last_lat : ℚ
  last_lon : ℚ
  max_altitude : ℚ
  min_battery : ℚ
  ended_normally : Bool
  current_status : String
deriving DecidableEq

/-- A decoded stored value: flight metadata or a telemetry packet (their
JSON forms in the real store). -/
inductive SVal where
  | meta (m : FlightMetadata)
  | pkt (p : KPacket)
deriving DecidableEq

/-- `FlightState` of `storage.rs`. -/
inductive FlightState where
  | OnGround
  | InFlight
  | Landing
deriving DecidableEq

/-- `TelemetryStorage` of `storage.rs` (the store abstracted to its
mapping). -/
structure TelemetryStorage where
  store : List (List Char × SVal)
  current_flight_id : Option (List Char)
  flight_state : FlightState
  landing_check_start : Option Nat
  last_position : Option (ℚ × ℚ)
  last_packet_time : Option Nat
  total_distance_km : ℚ
  last_phase : Option String
deriving DecidableEq

/-- `TelemetryStorage::new` on a fresh path (empty store). -/
def TelemetryStorage.init : TelemetryStorage :=
  { store := [], current_flight_id := none, flight_state := .OnGround,
    landing_check_start := none, last_position := none, last_packet_time := none,
    total_distance_km := 0, last_phase := none }

/-- `is_gps_stable` (storage.rs lines 138-148); `GPS_STABLE_THRESHOLD = 1e-4`. -/
def isGpsStable (s : TelemetryStorage) (p : KPacket) : Bool :=
  match s.last_position with
  | some q => decide (|p.latitude - q.1| < 1 / 10000) && decide (|p.longitude - q.2| < 1 / 10000)
  | none => true

/-- The `is_on_ground` test of `detect_flight_state` (lines 96-99);
`ALTITUDE_THRESHOLD = 5.0`, `SPEED_THRESHOLD = 2.0`. -/
def isOnGroundCk (s : TelemetryStorage) (p : KPacket) : Bool :=
  decide (p.altitude_gps ≤ 5) && decide (p.ground_speed ≤ 2) && isGpsStable s p

/-- `detect_flight_state` (lines 95-136): the new state and the new
`landing_check_start` (the only field the Rust method mutates);
`LANDING_CONFIRM_MS = 5000`; `saturating_sub` is `Nat` subtraction. -/
def detectFlightState (s : TelemetryStorage) (p : KPacket) : FlightState × Option Nat :=
  match s.flight_state with
  | .OnGround =>
    (if isOnGroundCk s p then .OnGround else .InFlight, s.landing_check_start)
  | .InFlight =>
    if isOnGroundCk s p then (.Landing, some p.timestamp)
    else (.InFlight, s.landing_check_start)
  | .Landing =>
    if ¬ isOnGroundCk s p then (.InFlight, none)
    else if 5000 ≤ p.timestamp - (s.landing_check_start.getD p.timestamp) then
      (.OnGround, s.landing_check_start)
    else (.Landing, s.landing_check_start)

/-- `get_next_flight_number` (lines 280-294): `max` over keys that parse as
`flight:flight_<N>`, plus one. -/
def getNextFlightNumber (s : TelemetryStorage) : Nat :=
  (s.store.map Prod.fst).foldl
    (fun maxNum k =>
      match stripPre "flight:flight_".toList k with
      | some numStr =>
        match parseUsize numStr with
        | some n => max maxNum n
        | none => maxNum
      | none => maxNum)
    0
  + 1

/-- u64 wrapping subtraction (Rust release builds; debug builds panic). -/
def u64sub (a b : Nat) : Nat := (a + 2 ^ 64 - b) % 2 ^ 64

/-- `start_new_flight` (lines 167-197). -/
def startNewFlight (s : TelemetryStorage) (p : KPacket) : TelemetryStorage :=
  let fid := flightId (getNextFlightNumber s)
  let m : FlightMetadata :=
    { flight_id := fid, start_time := p.timestamp, end_time := p.timestamp,
      duration_secs := 0, packet_count := 0, distance_km := 0,
      first_lat := p.latitude, first_lon := p.longitude,
      last_lat := p.latitude, last_lon := p.longitude,
      max_altitude := p.altitude_gps, min_battery := p.battery_voltage,
      ended_normally := true, current_status := p.getFlightPhase }
  { s with store := ainsert s.store (flightKey fid) (.meta m),
           current_flight_id := some fid, total_distance_km := 0 }

/-- `update_flight_metadata` (lines 199-228).  `duration_secs` uses plain
(wrapping) u64 subtraction in the source — not `saturating_sub`. -/
def updateFlightMetadata (s : TelemetryStorage) (p : KPacket) : TelemetryStorage :=
  match s.current_flight_id with
  | none => s
  | some fid =>
    match alookup s.store (flightKey fid) with
    | some (.meta m) =>
      let currentPhase := p.getFlightPhase
      let m' := { m with
        end_time := p.timestamp,
        duration_secs := u64sub p.timestamp m.start_time / 1000,
        packet_count := m.packet_count + 1,
        distance_km := s.total_distance_km,
        last_lat := p.latitude,
        last_lon := p.longitude,
        max_altitude := max m.max_altitude p.altitude_gps,
        min_battery := min m.min_battery p.battery_voltage,
        current_status := currentPhase }
      let s' := { s with store := ainsert s.store (flightKey fid) (.meta m') }
      if s'.last_phase ≠ some currentPhase then { s' with last_phase := some currentPhase }
      else s'
    | _ => s

/-- `end_current_flight(packet, true)` (lines 230-255; `save_packet` only
ever passes `normal = true`). -/
def endCurrentFlightNormal (s : TelemetryStorage) : TelemetryStorage :=
  match s.current_flight_id with
  | none => s
  | some fid =>
    let s' :=
      match alookup s.store (flightKey fid) with
      | some (.meta m) =>
        { s with store :=
            ainsert s.store (flightKey fid) (.meta { m with current_status := "Landed" }) }
      | _ => s
    { s' with current_flight_id := none, landing_check_start := none,
              total_distance_km := 0, last_phase := none }

/-- `end_current_flight_catastrophic` (lines 257-278). -/
def endCurrentFlightCatastrophic (s : TelemetryStorage) : TelemetryStorage :=
  match s.current_flight_id with
  | none => s
  | some fid =>
    let s' :=
      match alookup s.store (flightKey fid) with
      | some (.meta m) =>
        { s with store :=
            (ainsert s.store (flightKey fid)
              (.meta { m with ended_normally := false, distance_km := s.total_distance_km })) }
      | _ => s
    { s' with current_flight_id := none, landing_check_start := none,
              total_distance_km := 0, flight_state := .OnGround, last_phase := none }

/-- `save_packet` after the timeout check (lines 55-92), parameterized by
the haversine distance function (whose transcendental value no claim here
depends on). -/
def savePacketRest (hav : ℚ → ℚ → ℚ → ℚ → ℚ) (s : TelemetryStorage) (p : KPacket) :
    TelemetryStorage :=
  let det := detectFlightState s p
  let s1 := { s with landing_check_start := det.2 }
  let s2 :=
    if s1.current_flight_id.isSome then
      match s1.last_position with
      | some q =>
        { s1 with total_distance_km :=
            s1.total_distance_km + hav q.1 q.2 p.latitude p.longitude }
      | none => s1
    else s1
  let s3 :=
    match s2.flight_state, det.1 with
    | .OnGround, .InFlight => startNewFlight s2 p
    | .Landing, .OnGround => endCurrentFlightNormal s2
    | _, _ => s2
  let s4 := { s3 with flight_state := det.1 }
  let s5 :=
    match s4.current_flight_id with
    | some fid =>
      updateFlightMetadata
        { s4 with store := ainsert s4.store (telemKey fid p.timestamp) (.pkt p) } p
    | none => s4
  { s5 with last_position := some (p.latitude, p.longitude),
            last_packet_time := some p.timestamp }

/-- `save_packet` (lines 44-93).  The timeout check uses `saturating_sub`
(`Nat` subtraction) and `TIMEOUT_MS = 60000`. -/
def savePacket (hav : ℚ → ℚ → ℚ → ℚ → ℚ) (s : TelemetryStorage) (p : KPacket) :
    TelemetryStorage :=
  let s0 :=
    match s.last_packet_time with
    | some lastTime =>
      if 60000 < p.timestamp - lastTime ∧ s.current_flight_id.isSome then
        endCurrentFlightCatastrophic s
      else s
    | none => s
  savePacketRest hav s0 p

/-- Feed a finite packet stream through `save_packet` from a fresh storage. -/
def processStream (hav : ℚ → ℚ → ℚ → ℚ → ℚ) (stream : List KPacket) : TelemetryStorage :=
  stream.foldl (savePacket hav) TelemetryStorage.init

/-- Number of `telem:<fid>:*` keys present in the store. -/
def countTelem (st : List (List Char × SVal)) (fid : List Char) : Nat :=
  (st.map Prod.fst).countP (fun k => (telemPfx fid).isPrefixOf k)

/-- The error of a failed store operation surfaced by `delete_flight`. -/
inductive TSErr where
  | keyNotFound (key : List Char)
deriving DecidableEq

/-- The deletion loop of `delete_flight` (each `?` would return early, with
the deletions made so far kept). -/
def deleteKeys : List (List Char × SVal) → List (List Char) →
    List (List Char × SVal) × Option TSErr
  | st, [] => (st, none)
  | st, k :: rest =>
    match alookup st k with
    | none => (st, some (.keyNotFound k))
    | some _ => deleteKeys (aremove st k) rest

/-- `Store::compact` seen at the mapping level: it preserves the key-record
mapping (theorem `c2_compact_preserves`), so on the abstracted store it is
the identity. -/
def kvCompact (st : List (List Char × SVal)) : List (List Char × SVal) := st

/-- `delete_flight` (lines 344-366): delete the metadata key (`?` on
failure), collect and delete all `telem:<id>:*` keys, then compact. -/
def deleteFlight (s : TelemetryStorage) (fid : List Char) :
    TelemetryStorage × Option TSErr :=
  match alookup s.store (flightKey fid) with
  | none => (s, some (.keyNotFound (flightKey fid)))
  | some _ =>
    let st1 := aremove s.store (flightKey fid)
    let keysToDelete := (st1.map Prod.fst).filter (fun k => (telemPfx fid).isPrefixOf k)
    match deleteKeys st1 keysToDelete with
    | (st2, some e) => ({ s with store := st2 }, some e)
    | (st2, none) => ({ s with store := kvCompact st2 }, none)

/-! ## Claims C10, C6, C7 about the segmenter -/

/-- Claim C10: `delete_flight` on a flight id whose metadata key is absent
returns the `KeyNotFound` error from the very first `store.delete` and
leaves the storage completely unchanged — no telemetry record is deleted
and compaction never runs, even when `telem:<id>:*` records exist. -/
theorem c10_delete_flight_missing (s : TelemetryStorage) (fid : List Char)
    (h : alookup s.store (flightKey fid) = none) :
    deleteFlight s fid = (s, some (.keyNotFound (flightKey fid))) := by
  simp [deleteFlight, h]

/-- A concrete packet for the segmenter scenarios: position (49, 8), the
given gps altitude, ground speed and vertical speed, and timestamp. -/
def mkPacket (alt gs vs : ℚ) (ts : Nat) : KPacket :=
  { latitude := 49, longitude := 8, altitude_gps := alt, ground_speed := gs, heading := 0,
    num_satellites := 10, gps_fix_type := 3, altitude_baro := alt, vertical_speed := vs,
    temperature := 20, roll := 0, pitch := 0, yaw := 0, gyro_x := 0, gyro_y := 0, gyro_z := 0,
    accel_x := 0, accel_y := 0, accel_z := 0, battery_voltage := 12, battery_current := 1,
    battery_power := 12, battery_mah_used := 100, rssi := -50, snr := 10,
    timestamp := ts, packet_sequence := 1, system_status := 0 }

/-- A zero haversine term for evaluating concrete scenarios (no claim here
depends on the distance value). -/
def hav0 : ℚ → ℚ → ℚ → ℚ → ℚ := fun _ _ _ _ => 0

/-- A storage with an orphaned telemetry record for flight_001 and no
`flight:flight_001` metadata key. -/
def c10WitStorage : TelemetryStorage :=
  { TelemetryStorage.init with
    store := [(telemKey (flightId 1) 5000, .pkt (mkPacket 100 10 0 5000))] }

/-- Claim C10, witness: the deletion fails and the orphaned telemetry record
survives. -/
theorem c10_delete_flight_missing_witness :
    alookup c10WitStorage.store (flightKey (flightId 1)) = none ∧
      deleteFlight c10WitStorage (flightId 1)
        = (c10WitStorage, some (.keyNotFound (flightKey (flightId 1)))) :=
  ⟨by with_unfolding_all decide,
   c10_delete_flight_missing c10WitStorage (flightId 1) (by with_unfolding_all decide)⟩

set_option maxRecDepth 200000 in
/-- Claim C6 (code bug): feeding an airborne packet at timestamp 10000 (the
flight starts; `start_time = 10000`) and a second airborne packet at
timestamp 4000 — decreasing timestamps are a permitted input per the spec —
makes `update_flight_metadata` store `end_time = 4000 < start_time = 10000`,
violating the invariant `end_time ≥ start_time` (and its
`(packet.timestamp - metadata.start_time)` underflows, where the
neighbouring code deliberately uses `saturating_sub`). -/
theorem c6_end_time_bug :
    (match alookup (processStream hav0 [mkPacket 100 10 0 10000, mkPacket 100 10 0 4000]).store
        (flightKey (flightId 1)) with
     | some (.meta m) => decide (m.end_time < m.start_time)
     | _ => false) = true := by
  with_unfolding_all decide

/-- `update_flight_metadata` never changes which flight (if any) is open. -/
theorem updateFlightMetadata_cfi (s : TelemetryStorage) (p : KPacket) :
    (updateFlightMetadata s p).current_flight_id = s.current_flight_id := by
  unfold updateFlightMetadata
  split
  · rfl
  · split
    · dsimp only
      split <;> rfl
    · rfl

/-- Claim C7: with a flight open and `last_packet_time = lt`, a packet whose
timestamp exceeds `lt` by more than 60000 ms first closes the flight
catastrophically — `ended_normally := false`, the running distance
persisted, the in-memory flight dropped, state forced to `OnGround` —
before being processed normally; a new flight is then started iff the
packet itself fails the on-ground test (the InFlight criteria).  A packet
with a timestamp lower than `lt` never triggers the close (the gap uses
saturating subtraction). -/
theorem c7_catastrophic_timeout (hav : ℚ → ℚ → ℚ → ℚ → ℚ) (s : TelemetryStorage)
    (p : KPacket) (fid : List Char) (m : FlightMetadata) (lt : Nat)
    (hopen : s.current_flight_id = some fid)
    (hlt : s.last_packet_time = some lt)
    (hmeta : alookup s.store (flightKey fid) = some (.meta m)) :
    (60000 < p.timestamp - lt →
      savePacket hav s p = savePacketRest hav (endCurrentFlightCatastrophic s) p ∧
      (endCurrentFlightCatastrophic s).flight_state = .OnGround ∧
      (endCurrentFlightCatastrophic s).current_flight_id = none ∧
      alookup (endCurrentFlightCatastrophic s).store (flightKey fid)
        = some (.meta { m with ended_normally := false,
                               distance_km := s.total_distance_km }) ∧
      ((savePacket hav s p).current_flight_id.isSome = true ↔
        isOnGroundCk (endCurrentFlightCatastrophic s) p = false)) ∧
    (p.timestamp < lt → savePacket hav s p = savePacketRest hav s p) := by
  have hcat : endCurrentFlightCatastrophic s
      = { s with
          store := ainsert s.store (flightKey fid)
            (.meta { m with ended_normally := false, distance_km := s.total_distance_km }),
          current_flight_id := none, landing_check_start := none,
          total_distance_km := 0, flight_state := .OnGround, last_phase := none } := by
    simp only [endCurrentFlightCatastrophic, hopen, hmeta]
  have hsave : 60000 < p.timestamp - lt →
      savePacket hav s p = savePacketRest hav (endCurrentFlightCatastrophic s) p := by
    intro hgap
    simp only [savePacket, hlt]
    rw [if_pos ⟨hgap, by rw [hopen]; rfl⟩]
  constructor
  · intro hgap
    refine ⟨hsave hgap, ?_, ?_, ?_, ?_⟩
    · rw [hcat]
    · rw [hcat]
    · rw [hcat]
      exact alookup_ainsert_self _ _ _
    · rw [hsave hgap]
      have hid : (endCurrentFlightCatastrophic s).current_flight_id = none := by rw [hcat]
      have hfs : (endCurrentFlightCatastrophic s).flight_state = .OnGround := by rw [hcat]
      rw [savePacketRest]
      simp only [detectFlightState, hfs, hid]
      by_cases hog : isOnGroundCk (endCurrentFlightCatastrophic s) p
      · simp [hog, hid]
      · simp only [Bool.not_eq_true] at hog
        simp only [hog, hid, Option.isSome_none, Bool.false_eq_true, if_false,
          startNewFlight]
        rw [updateFlightMetadata_cfi]
        simp
  · intro hlow
    have hz : p.timestamp - lt = 0 := by omega
    simp only [savePacket, hlt, hz]
    rw [if_neg (by simp)]

/-- Metadata of an open flight, for the C7 scenario. -/
def c7WitMeta : FlightMetadata :=
  { flight_id := flightId 1, start_time := 1000, end_time := 1000, duration_secs := 0,
    packet_count := 3, distance_km := 0, first_lat := 49, first_lon := 8,
    last_lat := 49, last_lon := 8, max_altitude := 100, min_battery := 12,
    ended_normally := true, current_status := "Cruise" }

/-- A storage with flight_001 open, airborne, last packet at t = 1000. -/
def c7WitStorage : TelemetryStorage :=
  { store := [(flightKey (flightId 1), .meta c7WitMeta)],
    current_flight_id := some (flightId 1), flight_state := .InFlight,
    landing_check_start := none, last_position := some (49, 8),
    last_packet_time := some 1000, total_distance_km := 0,
    last_phase := some "Cruise" }

set_option maxRecDepth 40000 in
/-- Claim C7, witness: a packet at t = 62001 (gap 61001 ms > 60000) closes
flight_001 catastrophically before normal processing. -/
theorem c7_catastrophic_timeout_witness :
    (60000 < (mkPacket 100 10 0 62001).timestamp - 1000) ∧
    (savePacket hav0 c7WitStorage (mkPacket 100 10 0 62001)
        = savePacketRest hav0 (endCurrentFlightCatastrophic c7WitStorage)
            (mkPacket 100 10 0 62001) ∧
      (endCurrentFlightCatastrophic c7WitStorage).flight_state = .OnGround ∧
      (endCurrentFlightCatastrophic c7WitStorage).current_flight_id = none ∧
      alookup (endCurrentFlightCatastrophic c7WitStorage).store (flightKey (flightId 1))
        = some (.meta
            { c7WitMeta with
              ended_normally := false, distance_km := c7WitStorage.total_distance_km }) ∧
      ((savePacket hav0 c7WitStorage (mkPacket 100 10 0 62001)).current_flight_id.isSome
          = true ↔
        isOnGroundCk (endCurrentFlightCatastrophic c7WitStorage)
          (mkPacket 100 10 0 62001) = false)) :=
  ⟨by decide,
   (c7_catastrophic_timeout hav0 c7WitStorage (mkPacket 100 10 0 62001) (flightId 1)
      c7WitMeta 1000 (by with_unfolding_all decide) rfl
      (by with_unfolding_all decide)).1 (by decide)⟩

-- ===== C5 development: decimal strings =====

theorem isPrefixOf_iff {l r : List Char} : l.isPrefixOf r = true ↔ l <+: r :=
  List.isPrefixOf_iff_prefix

theorem digitChar_toNat_eq : ∀ d, d < 10 → (Nat.digitChar d).toNat = 48 + d := by decide

theorem natStrGo_foldl : ∀ (fuel n : Nat), n ≤ fuel → ∀ a : Nat,
    (natStrGo fuel n).foldl (fun acc c => acc * 10 + (c.toNat - 48)) a
      = a * 10 ^ (natStrGo fuel n).length + n := by
  intro fuel
  induction fuel with
  | zero =>
    intro n hn a
    have h0 : n = 0 := Nat.le_zero.mp hn
    subst h0
    simp [natStrGo]
  | succ fuel ih =>
    intro n hn a
    by_cases h0 : n = 0
    · subst h0; simp [natStrGo]
    · have hdiv : n / 10 ≤ fuel := by
        have := Nat.div_lt_self (Nat.pos_of_ne_zero h0) (by norm_num : (1:Nat) < 10)
        omega
      simp only [natStrGo, h0, if_false, List.foldl_append, List.foldl_cons, List.foldl_nil,
        List.length_append, List.length_cons, List.length_nil]
      rw [ih (n / 10) hdiv a]
      rw [digitChar_toNat_eq _ (Nat.mod_lt _ (by norm_num))]
      have h48 : 48 + n % 10 - 48 = n % 10 := by omega
      have hdm : 10 * (n / 10) + n % 10 = n := Nat.div_add_mod n 10
      set L := (natStrGo fuel (n / 10)).length with hL
      rw [h48]
      conv_rhs => rw [← hdm]
      ring

theorem natStr_foldl (n a : Nat) :
    (natStr n).foldl (fun acc c => acc * 10 + (c.toNat - 48)) a
      = a * 10 ^ (natStr n).length + n := by
  by_cases h0 : n = 0
  · subst h0
    show a * 10 + ('0'.toNat - 48) = a * 10 ^ 1 + 0
    rw [show '0'.toNat - 48 = 0 from by decide]
    ring
  · simp only [natStr, h0, if_false]
    exact natStrGo_foldl n n le_rfl a

theorem natStr_val (n : Nat) :
    (natStr n).foldl (fun acc c => acc * 10 + (c.toNat - 48)) 0 = n := by
  rw [natStr_foldl]; simp

theorem natStr_inj {m n : Nat} (h : natStr m = natStr n) : m = n := by
  have hm := natStr_val m
  rw [h, natStr_val] at hm
  omega

theorem foldl_replicate_zero : ∀ k : Nat,
    (List.replicate k '0').foldl (fun acc c => acc * 10 + (c.toNat - 48)) 0 = 0 := by
  intro k
  induction k with
  | zero => rfl
  | succ k ih =>
    have h : (0 * 10 + ('0'.toNat - 48)) = 0 := by decide
    simpa [List.replicate_succ, h] using ih

theorem fmt3_val (n : Nat) :
    (fmt3 n).foldl (fun acc c => acc * 10 + (c.toNat - 48)) 0 = n := by
  unfold fmt3
  rw [List.foldl_append, foldl_replicate_zero, natStr_foldl]
  simp

theorem fmt3_inj {m n : Nat} (h : fmt3 m = fmt3 n) : m = n := by
  have hm := fmt3_val m
  rw [h, fmt3_val] at hm
  omega

theorem isDigitCh_digitChar : ∀ d, d < 10 → isDigitCh (Nat.digitChar d) = true := by decide

theorem natStrGo_digits : ∀ fuel n c, c ∈ natStrGo fuel n → isDigitCh c = true := by
  intro fuel
  induction fuel with
  | zero => intro n c hc; simp [natStrGo] at hc
  | succ fuel ih =>
    intro n c hc
    by_cases h0 : n = 0
    · subst h0; simp [natStrGo] at hc
    · simp only [natStrGo, h0, if_false, List.mem_append, List.mem_singleton] at hc
      rcases hc with hc | hc
      · exact ih _ _ hc
      · subst hc; exact isDigitCh_digitChar _ (Nat.mod_lt _ (by norm_num))

theorem natStr_digits {n : Nat} {c : Char} (hc : c ∈ natStr n) : isDigitCh c = true := by
  by_cases h0 : n = 0
  · subst h0
    have hc' : c ∈ ['0'] := by simpa [natStr] using hc
    simp only [List.mem_singleton] at hc'
    subst hc'; decide
  · simp only [natStr, h0, if_false] at hc
    exact natStrGo_digits _ _ _ hc

theorem natStr_ne_nil (n : Nat) : natStr n ≠ [] := by
  by_cases h0 : n = 0
  · subst h0; simp [natStr]
  · simp only [natStr, h0, if_false]
    obtain ⟨m, rfl⟩ : ∃ m, n = m + 1 := ⟨n - 1, by omega⟩
    simp [natStrGo, h0]

theorem fmt3_digits {n : Nat} {c : Char} (hc : c ∈ fmt3 n) : isDigitCh c = true := by
  simp only [fmt3, List.mem_append, List.mem_replicate] at hc
  rcases hc with ⟨-, rfl⟩ | hc
  · decide
  · exact natStr_digits hc

theorem fmt3_ne_nil (n : Nat) : fmt3 n ≠ [] := by
  unfold fmt3
  intro h
  rcases List.append_eq_nil.mp h with ⟨-, h2⟩
  exact natStr_ne_nil n h2

theorem parseUsize_fmt3 (n : Nat) : parseUsize (fmt3 n) = some n := by
  unfold parseUsize
  rw [if_neg, if_pos]
  · rw [fmt3_val]
  · rw [List.all_eq_true]
    intro c hc
    exact fmt3_digits hc
  · simp [List.isEmpty_iff, fmt3_ne_nil]

-- ===== C5 development: key shapes =====

theorem isDigitCh_ne_colon {c : Char} (h : isDigitCh c = true) : c ≠ ':' := by
  intro hc
  subst hc
  exact absurd h (by decide)

def ColonFree (l : List Char) : Prop := ∀ c ∈ l, c ≠ ':'

theorem colonFree_flightId (n : Nat) : ColonFree (flightId n) := by
  intro c hc
  simp only [flightId, List.mem_append] at hc
  rcases hc with hc | hc
  · have hc' : c ∈ ['f', 'l', 'i', 'g', 'h', 't', '_'] := hc
    fin_cases hc' <;> decide
  · exact isDigitCh_ne_colon (fmt3_digits hc)

theorem colon_split : ∀ (a a' u v : List Char), ColonFree a → ColonFree a' →
    a ++ ':' :: u = a' ++ ':' :: v → a = a' ∧ u = v := by
  intro a
  induction a with
  | nil =>
    intro a' u v _ ha' h
    cases a' with
    | nil => exact ⟨rfl, by simpa using h⟩
    | cons y t' =>
      simp only [List.nil_append, List.cons_append, List.cons.injEq] at h
      exact absurd h.1.symm (ha' y (List.mem_cons_self _ _))
  | cons x t ih =>
    intro a' u v ha ha' h
    cases a' with
    | nil =>
      simp only [List.cons_append, List.nil_append, List.cons.injEq] at h
      exact absurd h.1 (ha x (List.mem_cons_self _ _))
    | cons y t' =>
      simp only [List.cons_append, List.cons.injEq] at h
      obtain ⟨rfl, h2⟩ := h
      obtain ⟨h3, h4⟩ := ih t' u v (fun c hc => ha c (List.mem_cons_of_mem _ hc))
        (fun c hc => ha' c (List.mem_cons_of_mem _ hc)) h2
      exact ⟨by rw [h3], h4⟩

theorem colon_pfx : ∀ (a a' v : List Char), ColonFree a → ColonFree a' →
    (a ++ [':']) <+: (a' ++ ':' :: v) → a = a' := by
  intro a
  induction a with
  | nil =>
    intro a' v _ ha' h
    cases a' with
    | nil => rfl
    | cons y t' =>
      simp only [List.nil_append, List.cons_append] at h
      rcases List.cons_prefix_cons.mp h with ⟨h1, -⟩
      exact absurd h1.symm (ha' y (List.mem_cons_self _ _))
  | cons x t ih =>
    intro a' v ha ha' h
    cases a' with
    | nil =>
      simp only [List.cons_append, List.nil_append] at h
      rcases List.cons_prefix_cons.mp h with ⟨h1, -⟩
      exact absurd h1 (ha x (List.mem_cons_self _ _))
    | cons y t' =>
      simp only [List.cons_append] at h
      rcases List.cons_prefix_cons.mp h with ⟨rfl, h2⟩
      rw [ih t' v (fun c hc => ha c (List.mem_cons_of_mem _ hc))
        (fun c hc => ha' c (List.mem_cons_of_mem _ hc)) h2]

theorem flightKey_inj {g g' : List Char} (h : flightKey g = flightKey g') : g = g' :=
  List.append_cancel_left h

theorem flightId_inj {m n : Nat} (h : flightId m = flightId n) : m = n :=
  fmt3_inj (List.append_cancel_left h)

theorem telemKey_inj {g g' : List Char} {ts ts' : Nat} (hg : ColonFree g) (hg' : ColonFree g')
    (h : telemKey g ts = telemKey g' ts') : g = g' ∧ ts = ts' := by
  unfold telemKey at h
  rw [List.append_assoc, List.append_assoc] at h
  have h2 := List.append_cancel_left h
  obtain ⟨h3, h4⟩ := colon_split _ _ _ _ hg hg' h2
  exact ⟨h3, natStr_inj h4⟩

theorem telemPfx_head (g : List Char) :
    telemPfx g = 't' :: ("elem:".toList ++ g ++ [':']) := rfl

theorem telemKey_head (g : List Char) (ts : Nat) :
    telemKey g ts = 't' :: ("elem:".toList ++ g ++ ':' :: natStr ts) := rfl

theorem flightKey_head (g : List Char) :
    flightKey g = 'f' :: ("light:".toList ++ g) := rfl

theorem telemPfx_pfx_iff {g g' : List Char} (hg : ColonFree g) (hg' : ColonFree g') (ts : Nat) :
    telemPfx g <+: telemKey g' ts ↔ g = g' := by
  constructor
  · intro h
    unfold telemPfx telemKey at h
    rw [List.append_assoc, List.append_assoc] at h
    have h2 := (List.prefix_append_right_inj _).mp h
    exact colon_pfx _ _ _ hg hg' h2
  · rintro rfl
    exact ⟨natStr ts, by simp [telemPfx, telemKey]⟩

theorem not_telemPfx_pfx_flightKey (g g' : List Char) : ¬ telemPfx g <+: flightKey g' := by
  rw [telemPfx_head, flightKey_head, List.cons_prefix_cons]
  rintro ⟨h, -⟩
  exact absurd h (by decide)

theorem telemKey_ne_flightKey (g : List Char) (ts : Nat) (g' : List Char) :
    telemKey g ts ≠ flightKey g' := by
  rw [telemKey_head, flightKey_head]
  intro h
  injection h with h1 _
  exact absurd h1 (by decide)

-- ===== C5 development: next flight number bound =====

theorem stripPre_pre_append (pre r : List Char) : stripPre pre (pre ++ r) = some r := by
  unfold stripPre
  rw [if_pos (isPrefixOf_iff.mpr (List.prefix_append _ _))]
  rw [List.drop_left]

theorem foldl_step_ge {g : Nat → List Char → Nat} (hmono : ∀ a k, a ≤ g a k) :
    ∀ (ks : List (List Char)) (a : Nat), a ≤ ks.foldl g a := by
  intro ks
  induction ks with
  | nil => intro a; simp
  | cons k rest ih => intro a; exact le_trans (hmono a k) (ih (g a k))

theorem foldl_step_mem_ge {g : Nat → List Char → Nat} (hmono : ∀ a k, a ≤ g a k)
    {n : Nat} {k : List Char} (hhit : ∀ a, n ≤ g a k) :
    ∀ (ks : List (List Char)) (a : Nat), k ∈ ks → n ≤ ks.foldl g a := by
  intro ks
  induction ks with
  | nil => intro a h; simp at h
  | cons k0 rest ih =>
    intro a h
    rcases List.mem_cons.mp h with rfl | h
    · exact le_trans (hhit a) (foldl_step_ge hmono rest (g a k))
    · exact ih (g a k0) h

theorem flightKey_flightId_eq (n : Nat) :
    flightKey (flightId n) = "flight:flight_".toList ++ fmt3 n := by
  show "flight:".toList ++ ("flight_".toList ++ fmt3 n) = _
  rw [← List.append_assoc]
  rfl

theorem flight_num_lt_next (s : TelemetryStorage) (n : Nat)
    (h : flightKey (flightId n) ∈ s.store.map Prod.fst) : n < getNextFlightNumber s := by
  unfold getNextFlightNumber
  refine Nat.lt_succ_of_le (foldl_step_mem_ge ?_ ?_ _ 0 h)
  · intro a k
    dsimp only
    split
    · split
      · exact Nat.le_max_left _ _
      · exact le_rfl
    · exact le_rfl
  · intro a
    simp only [flightKey_flightId_eq, stripPre_pre_append, parseUsize_fmt3]
    exact Nat.le_max_right _ _

-- ===== C5 development: association-list membership =====

theorem mem_ainsert_elim {α β : Type} [DecidableEq α] {l : List (α × β)} {key k : α}
    {val v : β} (hnd : (l.map Prod.fst).Nodup) (h : (k, v) ∈ ainsert l key val) :
    (k = key ∧ v = val) ∨ ((k, v) ∈ l ∧ k ≠ key) := by
  induction l with
  | nil =>
    simp only [ainsert, List.mem_singleton, Prod.mk.injEq] at h
    exact Or.inl h
  | cons hd t ih =>
    obtain ⟨k1, w⟩ := hd
    simp only [List.map_cons, List.nodup_cons] at hnd
    by_cases h1 : k1 = key
    · simp only [ainsert, if_pos h1] at h
      rcases List.mem_cons.mp h with heq | hmem
      · rw [Prod.mk.injEq] at heq
        exact Or.inl heq
      · refine Or.inr ⟨List.mem_cons_of_mem _ hmem, fun hk => hnd.1 ?_⟩
        have hkm : k ∈ t.map Prod.fst := List.mem_map_of_mem Prod.fst hmem
        rw [hk, ← h1] at hkm
        exact hkm
    · simp only [ainsert, if_neg h1] at h
      rcases List.mem_cons.mp h with heq | hmem
      · rw [Prod.mk.injEq] at heq
        refine Or.inr ⟨?_, ?_⟩
        · rw [heq.1, heq.2]
          exact List.mem_cons_self _ _
        · rw [heq.1]
          exact h1
      · rcases ih hnd.2 hmem with h2 | ⟨h2, h3⟩
        · exact Or.inl h2
        · exact Or.inr ⟨List.mem_cons_of_mem _ h2, h3⟩

theorem countTelem_ainsert_mem (st : List (List Char × SVal)) (k : List Char) (v : SVal)
    (fid : List Char) (h : (alookup st k).isSome) :
    countTelem (ainsert st k v) fid = countTelem st fid := by
  unfold countTelem
  rw [keys_ainsert_mem st k v h]

theorem countTelem_ainsert_fresh (st : List (List Char × SVal)) (k : List Char) (v : SVal)
    (fid : List Char) (h : alookup st k = none) :
    countTelem (ainsert st k v) fid
      = countTelem st fid + (if (telemPfx fid).isPrefixOf k then 1 else 0) := by
  unfold countTelem
  rw [keys_ainsert_fresh st k v h, List.countP_append]
  simp [List.countP_cons]

-- ===== C5 development: the segmenter-store invariant =====

theorem exists_mem_of_alookup_isSome {α β : Type} [DecidableEq α] {l : List (α × β)} {k : α}
    (h : (alookup l k).isSome) : ∃ v, (k, v) ∈ l := by
  cases hl : alookup l k with
  | none => rw [hl] at h; simp at h
  | some v => exact ⟨v, alookup_mem hl⟩

def TelemInv (seen : List Nat) (st : List (List Char × SVal))
    (cfi : Option (List Char)) : Prop :=
  (st.map Prod.fst).Nodup ∧
  (∀ k v, (k, v) ∈ st →
    (∃ n m, k = flightKey (flightId n) ∧ v = SVal.meta m ∧
      m.packet_count = countTelem st (flightId n)) ∨
    (∃ j ts q, k = telemKey (flightId j) ts ∧ v = SVal.pkt q ∧ ts ∈ seen ∧
      ∃ m, alookup st (flightKey (flightId j)) = some (SVal.meta m))) ∧
  (∀ fid, cfi = some fid →
    ∃ n m, fid = flightId n ∧ alookup st (flightKey fid) = some (SVal.meta m))

theorem telemInv_mono {seen seen' : List Nat} {st : List (List Char × SVal)}
    {cfi : Option (List Char)} (hs : ∀ t ∈ seen, t ∈ seen')
    (h : TelemInv seen st cfi) : TelemInv seen' st cfi := by
  obtain ⟨h1, h2, h3⟩ := h
  refine ⟨h1, ?_, h3⟩
  intro k v hk
  rcases h2 k v hk with hf | ⟨j, ts, q, hk2, hv, hts, hm⟩
  · exact Or.inl hf
  · exact Or.inr ⟨j, ts, q, hk2, hv, hs ts hts, hm⟩

theorem telemInv_meta_overwrite {seen : List Nat} {st : List (List Char × SVal)}
    {cfi : Option (List Char)} {fid : List Char} {m m' : FlightMetadata}
    (hinv : TelemInv seen st cfi)
    (hm : alookup st (flightKey fid) = some (SVal.meta m))
    (hpc : m'.packet_count = m.packet_count) :
    TelemInv seen (ainsert st (flightKey fid) (SVal.meta m')) none := by
  obtain ⟨hnd, hb, hc⟩ := hinv
  have hsome : (alookup st (flightKey fid)).isSome := by rw [hm]; rfl
  have hkeys : (ainsert st (flightKey fid) (SVal.meta m')).map Prod.fst = st.map Prod.fst :=
    keys_ainsert_mem _ _ _ hsome
  have hcount : ∀ g, countTelem (ainsert st (flightKey fid) (SVal.meta m')) g
      = countTelem st g := by
    intro g
    unfold countTelem
    rw [hkeys]
  refine ⟨by rw [hkeys]; exact hnd, ?_, fun fid' h => nomatch h⟩
  intro k v hkv
  rcases mem_ainsert_elim hnd hkv with ⟨hk, hv⟩ | ⟨hkv2, hne⟩
  · have horig := hb _ _ (alookup_mem hm)
    rcases horig with ⟨n, m2, hk2, hv2, hpc2⟩ | ⟨j, ts, q, hk2, hv2, -, -⟩
    · have hm2 : m = m2 := by cases hv2; rfl
      refine Or.inl ⟨n, m', ?_, ?_, ?_⟩
      · rw [hk, hk2]
      · rw [hv]
      · rw [hcount, hpc, hm2]
        exact hpc2
    · exact absurd hv2 (by simp)
  · rcases hb _ _ hkv2 with ⟨n, m2, hk2, hv2, hpc2⟩ | ⟨j, ts, q, hk2, hv2, hts, m3, hm3⟩
    · refine Or.inl ⟨n, m2, hk2, hv2, ?_⟩
      rw [hcount]
      exact hpc2
    · refine Or.inr ⟨j, ts, q, hk2, hv2, hts, ?_⟩
      by_cases he : flightKey (flightId j) = flightKey fid
      · refine ⟨m', ?_⟩
        rw [he]
        exact alookup_ainsert_self _ _ _
      · refine ⟨m3, ?_⟩
        rw [alookup_ainsert_ne _ _ (fun hx => he hx.symm)]
        exact hm3

theorem telemInv_endCat {seen : List Nat} (s : TelemetryStorage)
    (h : TelemInv seen s.store s.current_flight_id) :
    TelemInv seen (endCurrentFlightCatastrophic s).store
      (endCurrentFlightCatastrophic s).current_flight_id := by
  unfold endCurrentFlightCatastrophic
  cases hcfi : s.current_flight_id with
  | none =>
    exact h
  | some fid =>
    obtain ⟨n, m, hfid, hm⟩ := h.2.2 fid hcfi
    dsimp only
    rw [hm]
    exact telemInv_meta_overwrite h hm rfl

theorem telemInv_endNormal {seen : List Nat} (s : TelemetryStorage)
    (h : TelemInv seen s.store s.current_flight_id) :
    TelemInv seen (endCurrentFlightNormal s).store
      (endCurrentFlightNormal s).current_flight_id := by
  unfold endCurrentFlightNormal
  cases hcfi : s.current_flight_id with
  | none =>
    exact h
  | some fid =>
    obtain ⟨n, m, hfid, hm⟩ := h.2.2 fid hcfi
    dsimp only
    rw [hm]
    exact telemInv_meta_overwrite h hm rfl

theorem telemPfx_isPrefixOf_flightKey_false (g g' : List Char) :
    (telemPfx g).isPrefixOf (flightKey g') = false := by
  rw [← Bool.not_eq_true]
  intro hx
  exact not_telemPfx_pfx_flightKey g g' (isPrefixOf_iff.mp hx)

theorem telemInv_new_flight {seen : List Nat} {st : List (List Char × SVal)}
    {cfi : Option (List Char)} (hinv : TelemInv seen st cfi) (N : Nat) (m0 : FlightMetadata)
    (hpc0 : m0.packet_count = 0)
    (hbound : ∀ n, flightKey (flightId n) ∈ st.map Prod.fst → n < N) :
    TelemInv seen (ainsert st (flightKey (flightId N)) (SVal.meta m0))
      (some (flightId N)) := by
  obtain ⟨hnd, hb, hc⟩ := hinv
  have hfresh : alookup st (flightKey (flightId N)) = none := by
    cases hl : alookup st (flightKey (flightId N)) with
    | none => rfl
    | some v =>
      have hv := alookup_mem hl
      rcases hb _ _ hv with ⟨n2, m2, hk2, -, -⟩ | ⟨j, ts, q, hk2, -, -, -⟩
      · have hn2 : N = n2 := flightId_inj (flightKey_inj hk2)
        have hlt : n2 < N := by
          apply hbound
          rw [← hk2]
          exact List.mem_map_of_mem Prod.fst hv
        omega
      · exact absurd hk2.symm (telemKey_ne_flightKey _ _ _)
  have hcount0 : countTelem st (flightId N) = 0 := by
    unfold countTelem
    rw [List.countP_eq_zero]
    intro k hk
    intro hpre
    obtain ⟨kv, hmem, hfst⟩ := List.mem_map.mp hk
    obtain ⟨k2, v⟩ := kv
    dsimp only at hfst
    subst hfst
    have hp := isPrefixOf_iff.mp hpre
    rcases hb _ _ hmem with ⟨n2, m2, hk2, -, -⟩ | ⟨j, ts, q, hk2, -, -, m3, hm3⟩
    · rw [hk2] at hp
      exact not_telemPfx_pfx_flightKey _ _ hp
    · rw [hk2] at hp
      have hNj : flightId N = flightId j :=
        (telemPfx_pfx_iff (colonFree_flightId N) (colonFree_flightId j) ts).mp hp
      have hNj2 : N = j := flightId_inj hNj
      have hjlt : j < N := by
        apply hbound
        exact mem_of_alookup_isSome _ _ (by rw [hm3]; rfl)
      omega
  have hcnt : ∀ g, countTelem (ainsert st (flightKey (flightId N)) (SVal.meta m0)) g
      = countTelem st g := by
    intro g
    rw [countTelem_ainsert_fresh _ _ _ _ hfresh,
      telemPfx_isPrefixOf_flightKey_false g (flightId N)]
    simp
  refine ⟨nodup_keys_ainsert _ _ _ hnd, ?_, ?_⟩
  · intro k v hkv
    rcases mem_ainsert_elim hnd hkv with ⟨hk, hv⟩ | ⟨hkv2, hne⟩
    · refine Or.inl ⟨N, m0, hk, hv, ?_⟩
      rw [hcnt, hcount0, hpc0]
    · rcases hb _ _ hkv2 with ⟨n2, m2, hk2, hv2, hpc2⟩ | ⟨j, ts, q, hk2, hv2, hts, m3, hm3⟩
      · refine Or.inl ⟨n2, m2, hk2, hv2, ?_⟩
        rw [hcnt]
        exact hpc2
      · refine Or.inr ⟨j, ts, q, hk2, hv2, hts, ?_⟩
        by_cases he : flightKey (flightId j) = flightKey (flightId N)
        · refine ⟨m0, ?_⟩
          rw [he]
          exact alookup_ainsert_self _ _ _
        · refine ⟨m3, ?_⟩
          rw [alookup_ainsert_ne _ _ (fun hx => he hx.symm)]
          exact hm3
  · intro fid hfid
    have hfid2 : fid = flightId N := (Option.some.inj hfid).symm
    refine ⟨N, m0, hfid2, ?_⟩
    rw [hfid2]
    exact alookup_ainsert_self _ _ _

theorem telemInv_startNewFlight {seen : List Nat} (s : TelemetryStorage) (p : KPacket)
    (h : TelemInv seen s.store s.current_flight_id) :
    TelemInv seen (startNewFlight s p).store (startNewFlight s p).current_flight_id := by
  unfold startNewFlight
  dsimp only
  exact telemInv_new_flight h (getNextFlightNumber s) _ rfl
    (fun n hn => flight_num_lt_next s n hn)

theorem updateFlightMetadata_store (s : TelemetryStorage) (p : KPacket) (fid : List Char)
    (m : FlightMetadata) (hc : s.current_flight_id = some fid)
    (hm : alookup s.store (flightKey fid) = some (SVal.meta m)) :
    ∃ m', (updateFlightMetadata s p).store = ainsert s.store (flightKey fid) (SVal.meta m')
      ∧ m'.packet_count = m.packet_count + 1 := by
  unfold updateFlightMetadata
  rw [hc]
  dsimp only
  rw [hm]
  dsimp only
  split
  · exact ⟨_, rfl, rfl⟩
  · exact ⟨_, rfl, rfl⟩

theorem telemInv_insert_packet {seen : List Nat} {st : List (List Char × SVal)}
    {cfi : Option (List Char)} (n : Nat) (p : KPacket) (m m' : FlightMetadata)
    (hinv : TelemInv seen st cfi)
    (hm : alookup st (flightKey (flightId n)) = some (SVal.meta m))
    (hpc : m'.packet_count = m.packet_count + 1)
    (hts : p.timestamp ∉ seen) :
    TelemInv (p.timestamp :: seen)
      (ainsert (ainsert st (telemKey (flightId n) p.timestamp) (SVal.pkt p))
        (flightKey (flightId n)) (SVal.meta m'))
      (some (flightId n)) := by
  obtain ⟨hnd, hb, hc⟩ := hinv
  have hfresh : alookup st (telemKey (flightId n) p.timestamp) = none := by
    cases hl : alookup st (telemKey (flightId n) p.timestamp) with
    | none => rfl
    | some v =>
      exfalso
      have hv := alookup_mem hl
      rcases hb _ _ hv with ⟨n2, m2, hk2, -, -⟩ | ⟨j, ts, q, hk2, -, hts2, -⟩
      · exact absurd hk2 (telemKey_ne_flightKey _ _ _)
      · obtain ⟨-, hts3⟩ := telemKey_inj (colonFree_flightId n) (colonFree_flightId j) hk2
        rw [← hts3] at hts2
        exact hts hts2
  have hkeys1 : (ainsert st (telemKey (flightId n) p.timestamp) (SVal.pkt p)).map Prod.fst
      = st.map Prod.fst ++ [telemKey (flightId n) p.timestamp] :=
    keys_ainsert_fresh _ _ _ hfresh
  have hnd1 : ((ainsert st (telemKey (flightId n) p.timestamp) (SVal.pkt p)).map
      Prod.fst).Nodup := nodup_keys_ainsert _ _ _ hnd
  have hlk1 : ∀ g : List Char,
      alookup (ainsert st (telemKey (flightId n) p.timestamp) (SVal.pkt p)) (flightKey g)
        = alookup st (flightKey g) :=
    fun g => alookup_ainsert_ne _ _ (telemKey_ne_flightKey _ _ _)
  have hm1 : alookup (ainsert st (telemKey (flightId n) p.timestamp) (SVal.pkt p))
      (flightKey (flightId n)) = some (SVal.meta m) := (hlk1 (flightId n)).trans hm
  have hm1some : (alookup (ainsert st (telemKey (flightId n) p.timestamp) (SVal.pkt p))
      (flightKey (flightId n))).isSome := by rw [hm1]; rfl
  have hkeys2 : ((ainsert (ainsert st (telemKey (flightId n) p.timestamp) (SVal.pkt p))
      (flightKey (flightId n)) (SVal.meta m')).map Prod.fst)
      = (ainsert st (telemKey (flightId n) p.timestamp) (SVal.pkt p)).map Prod.fst :=
    keys_ainsert_mem _ _ _ hm1some
  have hcnt : ∀ j : Nat,
      countTelem (ainsert (ainsert st (telemKey (flightId n) p.timestamp) (SVal.pkt p))
        (flightKey (flightId n)) (SVal.meta m')) (flightId j)
      = countTelem st (flightId j) + (if j = n then 1 else 0) := by
    intro j
    unfold countTelem
    rw [hkeys2, hkeys1, List.countP_append]
    simp only [List.countP_cons, List.countP_nil]
    by_cases hj : j = n
    · subst hj
      have hpre : (telemPfx (flightId j)).isPrefixOf (telemKey (flightId j) p.timestamp)
          = true :=
        isPrefixOf_iff.mpr
          ((telemPfx_pfx_iff (colonFree_flightId j) (colonFree_flightId j)
            p.timestamp).mpr rfl)
      rw [hpre]
      simp
    · have hne : flightId j ≠ flightId n := fun hx => hj (flightId_inj hx)
      have hpre : (telemPfx (flightId j)).isPrefixOf (telemKey (flightId n) p.timestamp)
          = false := by
        rw [← Bool.not_eq_true]
        intro hx
        exact hne ((telemPfx_pfx_iff (colonFree_flightId j) (colonFree_flightId n)
          p.timestamp).mp (isPrefixOf_iff.mp hx))
      rw [hpre]
      simp [hj]
  refine ⟨by rw [hkeys2]; exact hnd1, ?_, ?_⟩
  · intro k v hkv
    rcases mem_ainsert_elim hnd1 hkv with ⟨hk, hv⟩ | ⟨hkv2, hne2⟩
    · refine Or.inl ⟨n, m', hk, hv, ?_⟩
      rw [hcnt, if_pos rfl, hpc]
      congr 1
      rcases hb _ _ (alookup_mem hm) with ⟨n2, m2, hk2, hv2, hpc2⟩ | ⟨j, ts, q, hk2, -, -, -⟩
      · have hn2 : n = n2 := flightId_inj (flightKey_inj hk2)
        have hm2 : m = m2 := by cases hv2; rfl
        rw [hm2, hn2]
        exact hpc2
      · exact absurd hk2.symm (telemKey_ne_flightKey _ _ _)
    · rcases mem_ainsert_elim hnd hkv2 with ⟨hk, hv⟩ | ⟨hkv3, hne3⟩
      · refine Or.inr ⟨n, p.timestamp, p, hk, hv, List.mem_cons_self _ _, m', ?_⟩
        exact alookup_ainsert_self _ _ _
      · rcases hb _ _ hkv3 with ⟨n2, m2, hk2, hv2, hpc2⟩ | ⟨j, ts, q, hk2, hv2, hts2, m3, hm3⟩
        · refine Or.inl ⟨n2, m2, hk2, hv2, ?_⟩
          have hn2 : n2 ≠ n := by
            intro hx
            subst hx
            rw [hk2] at hne2
            exact hne2 rfl
          rw [hcnt, if_neg hn2]
          simp [hpc2]
        · refine Or.inr ⟨j, ts, q, hk2, hv2, List.mem_cons_of_mem _ hts2, ?_⟩
          by_cases he : flightKey (flightId j) = flightKey (flightId n)
          · refine ⟨m', ?_⟩
            rw [he]
            exact alookup_ainsert_self _ _ _
          · refine ⟨m3, ?_⟩
            rw [alookup_ainsert_ne _ _ (fun hx => he hx.symm), hlk1]
            exact hm3
  · intro fid hfid
    have hfid2 : fid = flightId n := (Option.some.inj hfid).symm
    refine ⟨n, m', hfid2, ?_⟩
    rw [hfid2]
    exact alookup_ainsert_self _ _ _

theorem telemInv_stage5_some {seen : List Nat} (p : KPacket)
    {st : List (List Char × SVal)} {cfi : Option (List Char)} {fs : FlightState}
    {lcs : Option Nat} {lp : Option (ℚ × ℚ)} {lpt : Option Nat} {tdk : ℚ}
    {lph : Option String} (fid : List Char) (hc : cfi = some fid)
    (h : TelemInv seen st cfi) (hts : p.timestamp ∉ seen) :
    TelemInv (p.timestamp :: seen)
      (updateFlightMetadata
        ⟨ainsert st (telemKey fid p.timestamp) (SVal.pkt p), cfi, fs, lcs, lp, lpt, tdk, lph⟩
        p).store
      (updateFlightMetadata
        ⟨ainsert st (telemKey fid p.timestamp) (SVal.pkt p), cfi, fs, lcs, lp, lpt, tdk, lph⟩
        p).current_flight_id := by
  obtain ⟨n, m, hfid, hm⟩ := h.2.2 fid hc
  subst hfid
  have hc2 : (⟨ainsert st (telemKey (flightId n) p.timestamp) (SVal.pkt p), cfi, fs, lcs,
      lp, lpt, tdk, lph⟩ : TelemetryStorage).current_flight_id = some (flightId n) := hc
  have hm2 : alookup (⟨ainsert st (telemKey (flightId n) p.timestamp) (SVal.pkt p), cfi,
      fs, lcs, lp, lpt, tdk, lph⟩ : TelemetryStorage).store (flightKey (flightId n))
      = some (SVal.meta m) := by
    dsimp only
    rw [alookup_ainsert_ne _ _ (telemKey_ne_flightKey _ _ _)]
    exact hm
  obtain ⟨m', hstore, hpc⟩ := updateFlightMetadata_store _ p (flightId n) m hc2 hm2
  rw [hstore, updateFlightMetadata_cfi]
  dsimp only
  rw [hc]
  rw [hc] at h
  exact telemInv_insert_packet n p m m' h hm hpc hts

theorem telemInv_savePacketRest {seen : List Nat} (hav : ℚ → ℚ → ℚ → ℚ → ℚ)
    (t : TelemetryStorage) (p : KPacket)
    (h : TelemInv seen t.store t.current_flight_id)
    (hts : p.timestamp ∉ seen) :
    TelemInv (p.timestamp :: seen) (savePacketRest hav t p).store
      (savePacketRest hav t p).current_flight_id := by
  unfold savePacketRest
  rcases hdet : detectFlightState t p with ⟨d1, d2⟩
  dsimp only
  rcases hcfi : t.current_flight_id with _ | fid0 <;> rw [hcfi] at h <;>
    [simp only [Option.isSome_none, Bool.false_eq_true, if_false];
     simp only [Option.isSome_some, if_true]] <;>
    (try rcases hlp : t.last_position with _ | q) <;> (try dsimp only) <;>
    rcases hfs : t.flight_state <;> cases d1 <;> (try dsimp only) <;>
    first
    | (refine telemInv_mono (fun x hx => List.mem_cons_of_mem _ hx) ?_
       first
       | exact h
       | (refine telemInv_startNewFlight _ p ?_; exact h)
       | (refine telemInv_endNormal _ ?_; exact h))
    | (refine telemInv_stage5_some p _ ?_ ?_ hts
       · rfl
       · first
         | exact h
         | (refine telemInv_startNewFlight _ p ?_; exact h)
         | (refine telemInv_endNormal _ ?_; exact h))
    | (split
       · rename_i fid heq
         refine telemInv_stage5_some p fid heq ?_ hts
         first
         | exact h
         | (refine telemInv_startNewFlight _ p ?_; exact h)
         | (refine telemInv_endNormal _ ?_; exact h)
       · refine telemInv_mono (fun x hx => List.mem_cons_of_mem _ hx) ?_
         first
         | exact h
         | (refine telemInv_startNewFlight _ p ?_; exact h)
         | (refine telemInv_endNormal _ ?_; exact h))

theorem telemInv_savePacket {seen : List Nat} (hav : ℚ → ℚ → ℚ → ℚ → ℚ)
    (s : TelemetryStorage) (p : KPacket)
    (h : TelemInv seen s.store s.current_flight_id) (hts : p.timestamp ∉ seen) :
    TelemInv (p.timestamp :: seen) (savePacket hav s p).store
      (savePacket hav s p).current_flight_id := by
  unfold savePacket
  rcases hlpt : s.last_packet_time with _ | lt
  · dsimp only
    exact telemInv_savePacketRest hav s p h hts
  · dsimp only
    split
    · exact telemInv_savePacketRest hav _ p (telemInv_endCat s h) hts
    · exact telemInv_savePacketRest hav s p h hts

theorem telemInv_foldl (hav : ℚ → ℚ → ℚ → ℚ → ℚ) :
    ∀ (stream : List KPacket) (s : TelemetryStorage) (seen : List Nat),
    TelemInv seen s.store s.current_flight_id →
    (∀ p ∈ stream, p.timestamp ∉ seen) →
    stream.Pairwise (fun p q => p.timestamp ≠ q.timestamp) →
    ∃ seen', TelemInv seen' (stream.foldl (savePacket hav) s).store
      (stream.foldl (savePacket hav) s).current_flight_id := by
  intro stream
  induction stream with
  | nil =>
    intro s seen h _ _
    exact ⟨seen, h⟩
  | cons p rest ih =>
    intro s seen h hnotin hpw
    rw [List.foldl_cons]
    rcases List.pairwise_cons.mp hpw with ⟨hp, hpw2⟩
    refine ih (savePacket hav s p) (p.timestamp :: seen)
      (telemInv_savePacket hav s p h (hnotin p (List.mem_cons_self _ _))) ?_ hpw2
    intro q hq
    rw [List.mem_cons]
    push_neg
    exact ⟨Ne.symm (hp q hq), hnotin q (List.mem_cons_of_mem _ hq)⟩

/-- Claim C5 (amended): for every packet stream whose timestamps are pairwise
distinct, every flight metadata record stored under `flight:<id>` has
`packet_count` equal to the exact number of `telem:<id>:*` keys in the store.
(The claim as stated also covers duplicate-timestamp streams, where the claim
fails: the put overwrites the earlier `telem` record but `packet_count` is
still incremented — see the counterexample.) -/
theorem c5_packet_count_exact (hav : ℚ → ℚ → ℚ → ℚ → ℚ) (stream : List KPacket)
    (hdist : stream.Pairwise (fun p q => p.timestamp ≠ q.timestamp))
    (fid : List Char) (m : FlightMetadata)
    (hm : alookup (processStream hav stream).store (flightKey fid) = some (SVal.meta m)) :
    m.packet_count = countTelem (processStream hav stream).store fid := by
  obtain ⟨seen', hinv⟩ := telemInv_foldl hav stream TelemetryStorage.init []
    ⟨List.Pairwise.nil, fun k v hkv => absurd hkv (List.not_mem_nil _),
      fun fid' hf => nomatch hf⟩
    (fun p _ => List.not_mem_nil _) hdist
  rcases hinv.2.1 _ _ (alookup_mem hm) with ⟨n, m2, hk2, hv2, hpc2⟩ | ⟨j, ts, q, hk2, hv2, -, -⟩
  · have hfid : fid = flightId n := flightKey_inj hk2
    have hm2 : m = m2 := by cases hv2; rfl
    rw [hfid, hm2]
    exact hpc2
  · exact absurd hv2 (by simp)

/-- A two-packet airborne stream with distinct timestamps. -/
def c5WitStream : List KPacket := [mkPacket 100 10 0 1000, mkPacket 100 10 0 3000]

/-- The metadata record the segmenter stores for flight_001 on `c5WitStream`
(with an irrelevant fallback for the impossible lookup failure). -/
def c5WitMeta : FlightMetadata :=
  match alookup (processStream hav0 c5WitStream).store (flightKey (flightId 1)) with
  | some (SVal.meta m) => m
  | _ => { flight_id := [], start_time := 0, end_time := 0, duration_secs := 0,
           packet_count := 0, distance_km := 0, first_lat := 0, first_lon := 0,
           last_lat := 0, last_lon := 0, max_altitude := 0, min_battery := 0,
           ended_normally := true, current_status := "" }

set_option maxRecDepth 400000 in
/-- Claim C5, counterexample to the claim as stated: two airborne packets with
the same timestamp 1000 leave `packet_count = 2` but only one
`telem:flight_001:1000` key (the second put overwrote the first). -/
theorem c5_duplicate_timestamp_cex :
    (match alookup (processStream hav0
        [mkPacket 100 10 0 1000, mkPacket 100 10 0 1000]).store (flightKey (flightId 1)) with
     | some (SVal.meta m) => decide (m.packet_count = 2) &&
         decide (countTelem (processStream hav0
           [mkPacket 100 10 0 1000, mkPacket 100 10 0 1000]).store (flightId 1) = 1)
     | _ => false) = true := by
  with_unfolding_all decide

set_option maxRecDepth 400000 in
/-- Claim C5, witness: on the two-packet distinct-timestamp stream the stored
metadata of flight_001 counts exactly the `telem:flight_001:*` keys. -/
theorem c5_packet_count_exact_witness :
    (c5WitStream.Pairwise (fun p q => p.timestamp ≠ q.timestamp)) ∧
    c5WitMeta.packet_count
      = countTelem (processStream hav0 c5WitStream).store (flightId 1) :=
  ⟨by decide, c5_packet_count_exact hav0 c5WitStream (by decide) (flightId 1) c5WitMeta
      (by with_unfolding_all rfl)⟩
